import Mathlib

/-!
Verification development for the DictaPilot smart editor
(`src/smart_editor.py`): a shallow embedding of the transcript state
machine, the command classifier, the normalizer and the adaptive
dictionary, together with theorems about the claims of the
specification.

Strings are embedded as `List Char`.  Python `re` patterns are embedded
as hand-written matching functions that reproduce the semantics of each
concrete pattern (case-insensitive literal alternation, word boundaries,
greedy repetition with backtracking where the pattern needs it).
`re.sub` is embedded by the generic scanner `subAll` below, which scans
left to right, replaces non-overlapping matches and resumes after each
match, exactly as Python does for the patterns in this file (none of
which can match the empty string).

Module-level configuration read from the environment at import time is
embedded as an explicit `Config` value; `defaultConfig` mirrors the
values obtained when no environment variable is set
(`CLEANUP_LEVEL = "aggressive"`, `CLEANUP_STRICTNESS = "balanced"`,
`CONFIDENCE_THRESHOLD = 0.65`, `ADAPTIVE_MIN_COUNT = 2`,
`USER_ADAPTATION = on`).  File-backed maps (personal dictionary,
snippets, adaptive dictionary) are embedded as explicit association
lists threaded through the functions that read or write them, with the
key coercion already applied (the loader lower-cases keys).
-/

/-- Convert a string literal to the working representation. -/
def lc (s : String) : List Char := s.data

/-- Python `\s` on the ASCII range (the inputs of this development). -/
def isSpaceC (c : Char) : Bool :=
  c = ' ' || c = '\t' || c = '\n' || c = '\x0d' || c = '\x0b' || c = '\x0c'

/-- Python `\w` on the ASCII range: letters, digits, underscore. -/
def isWordC (c : Char) : Bool :=
  ('a' ≤ c && c ≤ 'z') || ('A' ≤ c && c ≤ 'Z') || ('0' ≤ c && c ≤ '9') || c = '_'

/-- ASCII letter test (Python `str.isalpha` on ASCII inputs). -/
def isAlphaC (c : Char) : Bool :=
  ('a' ≤ c && c ≤ 'z') || ('A' ≤ c && c ≤ 'Z')

/-- ASCII digit test. -/
def isDigitC (c : Char) : Bool := '0' ≤ c && c ≤ '9'

/-- ASCII lower-case letter test (Python `str.islower` on ASCII). -/
def isLowerC (c : Char) : Bool := 'a' ≤ c && c ≤ 'z'

/-- ASCII lower-casing (Python `str.lower` on ASCII inputs). -/
def pyLowerC (c : Char) : Char :=
  if 'A' ≤ c && c ≤ 'Z' then Char.ofNat (c.toNat + 32) else c

/-- ASCII upper-casing (Python `str.upper` on ASCII inputs). -/
def pyUpperC (c : Char) : Char :=
  if 'a' ≤ c && c ≤ 'z' then Char.ofNat (c.toNat - 32) else c

/-- Lower-case a whole string. -/
def lowerS (s : List Char) : List Char := s.map pyLowerC

/-- Case-insensitive character comparison (`re.IGNORECASE` on ASCII). -/
def eqCI (a b : Char) : Bool := pyLowerC a = pyLowerC b

/-- Python `str.strip()`: drop leading and trailing whitespace. -/
def strip (s : List Char) : List Char :=
  ((s.dropWhile (fun c => isSpaceC c)).reverse.dropWhile (fun c => isSpaceC c)).reverse

/-- Python `str.lstrip(chars)` for an explicit character set. -/
def lstripSet (set : List Char) (s : List Char) : List Char :=
  s.dropWhile (fun c => set.contains c)

/-- Case-insensitive literal prefix match: on success return the rest. -/
def matchCI : List Char → List Char → Option (List Char)
  | [], s => some s
  | _ :: _, [] => none
  | p :: ps, c :: cs => if eqCI p c then matchCI ps cs else none

/-- Word-boundary test between two optional characters (Python `\b`:
holds when exactly one side is a word character; the absent side of the
string counts as a non-word character). -/
def wordBoundary (a b : Option Char) : Bool :=
  (match a with | some c => isWordC c | none => false) ≠
    (match b with | some c => isWordC c | none => false)

/-- Maximal run split: `span` of a predicate. -/
def spanP (p : Char → Bool) (s : List Char) : List Char × List Char :=
  (s.takeWhile p, s.dropWhile p)

/-- A `re.sub` step: given the character before the current position and
the current suffix, return `(consumed, replacement)` on a match, where
`consumed ≥ 1` is the number of characters matched. -/
def Matcher : Type := Option Char → List Char → Option (Nat × List Char)

/-- Fuel-driven implementation of `re.sub`: scan left to right, emit
replacements for non-overlapping matches, resume after each match.  The
character preceding the resume point (taken from the original string) is
carried for word-boundary tests. -/
def subAllF (m : Matcher) : Nat → Option Char → List Char → List Char
  | 0, _, s => s
  | _ + 1, _, [] => []
  | fuel + 1, prev, c :: cs =>
    match m prev (c :: cs) with
    | some (n, repl) =>
      let n' := max n 1
      let consumed := (c :: cs).take n'
      repl ++ subAllF m fuel consumed.getLast? ((c :: cs).drop n')
    | none => c :: subAllF m fuel (some c) cs

/-- `re.sub` over a whole string. -/
def subAll (m : Matcher) (s : List Char) : List Char :=
  subAllF m s.length none s

/-- Decidable scan mirroring `subAllF` on the no-match path: `true` when
the matcher fires at no position of the string. -/
def noMatch (m : Matcher) : Option Char → List Char → Bool
  | _, [] => true
  | prev, c :: cs => (m prev (c :: cs)).isNone && noMatch m (some c) cs

/-- The matcher for Python `\s+` (used by `_normalize_spaces`):
consume a maximal whitespace run, replace it with a single space. -/
def wsRunM : Matcher := fun _ s =>
  let (run, _) := spanP isSpaceC s
  if run.isEmpty then none else some (run.length, [' '])

/-- `_normalize_spaces`: `re.sub(r"\s+", " ", text).strip()`. -/
def normalize_spaces (s : List Char) : List Char :=
  strip (subAll wsRunM s)

/-- `_join_segments`: join the stripped non-empty segments with single
spaces, then strip. -/
def join_segments (segments : List (List Char)) : List Char :=
  strip (List.intercalate (lc " ")
    (segments.filterMap (fun part =>
      if part ≠ [] ∧ strip part ≠ [] then some (strip part) else none)))

/-- Accumulator pass for `splitWS`: collect the current token in
reverse while scanning. -/
def splitWSAux : List Char → List Char → List (List Char)
  | [], acc => if acc.isEmpty then [] else [acc.reverse]
  | c :: cs, acc =>
    if isSpaceC c then
      if acc.isEmpty then splitWSAux cs [] else acc.reverse :: splitWSAux cs []
    else splitWSAux cs (c :: acc)

/-- Python `str.split()` (no argument): whitespace-separated tokens,
empties dropped. -/
def splitWS (s : List Char) : List (List Char) :=
  splitWSAux s []

/-- Association-list lookup (embedding of Python `dict.get`). -/
def lookupA {α : Type} (l : List (List Char × α)) (k : List Char) : Option α :=
  (l.find? (fun p => p.1 == k)).map (fun p => p.2)

/-- Association-list update with Python `dict` semantics: an existing
key keeps its position and gets the new value, a new key is appended. -/
def updateA {α : Type} (l : List (List Char × α)) (k : List Char) (v : α) :
    List (List Char × α) :=
  if (l.find? (fun p => p.1 == k)).isSome then
    l.map (fun p => if p.1 == k then (k, v) else p)
  else l ++ [(k, v)]

/-- Python `dict.update`: fold `updateA` over the added entries. -/
def dictUpdate {α : Type} (base add : List (List Char × α)) :
    List (List Char × α) :=
  add.foldl (fun acc p => updateA acc p.1 p.2) base

/-- First alternative that matches as a case-insensitive prefix and is
followed by a word boundary; returns the rest of the string.  This is
the embedding of a regex alternation of literals followed by `\b`
(every alternative used in this file ends in a word character). -/
def firstAltB : List (List Char) → List Char → Option (List Char)
  | [], _ => none
  | a :: rest, s =>
    match matchCI a s with
    | some r => if wordBoundary a.getLast? r.head? then some r else firstAltB rest s
    | none => firstAltB rest s

/-- `alts` with each of the optional tails `(?: that| this| it)?` of the
ignore patterns, longest first (greedy optional group). -/
def withTails (base : List Char) : List (List Char) :=
  [base ++ lc " that", base ++ lc " this", base ++ lc " it", base]

/-- The preface words of `_COMMAND_PREFACE_RE`, in alternation order
(`ok(?:ay)?` expands to `okay` tried before `ok`). -/
def prefaceWords : List (List Char) :=
  [lc "oh no", lc "oops", lc "please", lc "hey", lc "okay", lc "ok",
   lc "wait", lc "well", lc "uh", lc "um", lc "hmm"]

/-- The separator class `[\s,\-.:;]` of the preface pattern. -/
def prefaceSepC (c : Char) : Bool :=
  isSpaceC c || c = ',' || c = '-' || c = '.' || c = ':' || c = ';'

/-- One unit of `_COMMAND_PREFACE_RE`: a preface word, a word boundary,
then any run of separator characters. -/
def prefaceUnit (s : List Char) : Option (List Char) :=
  match firstAltB prefaceWords s with
  | some r => some (r.dropWhile prefaceSepC)
  | none => none

/-- Greedy repetition of preface units. -/
def prefaceLoop : Nat → List Char → List Char
  | 0, s => s
  | fuel + 1, s =>
    match prefaceUnit s with
    | some r => prefaceLoop fuel r
    | none => s

/-- `_strip_command_preface`: remove the leading preface (at least one
unit, greedily repeated) from the normalized text, then strip. -/
def strip_command_preface (s : List Char) : List Char :=
  let n := normalize_spaces s
  match prefaceUnit n with
  | some r => strip (prefaceLoop n.length r)
  | none => strip n

/-- `_UNDO_RE` alternatives in alternation order (`undo(?: that)?`
expands to `undo that` tried before `undo`). -/
def undoAlts : List (List Char) :=
  [lc "delete that", lc "delete previous", lc "undo that", lc "undo",
   lc "scratch that", lc "remove that", lc "remove previous",
   lc "take that out", lc "erase that", lc "drop that", lc "backspace that"]

/-- `_UNDO_RE`: on success return the `rest` group (everything after the
word boundary). -/
def undo_match (s : List Char) : Option (List Char) :=
  firstAltB undoAlts s

/-- The trailing class `[\s,.!?:;-]` of the clear patterns. -/
def clearTailC (c : Char) : Bool :=
  isSpaceC c || c = ',' || c = '.' || c = '!' || c = '?' || c = ':' || c = ';' || c = '-'

/-- An alternation of literals followed by `\b` and a whole-rest
character-class check (the shape of `_CLEAR_RE` and `_CLEAR_SIMPLE_RE`). -/
def altFullTail (alts : List (List Char)) (tail : Char → Bool) (s : List Char) : Bool :=
  alts.any (fun a =>
    match matchCI a s with
    | some r => wordBoundary a.getLast? r.head? && r.all tail
    | none => false)

/-- `_CLEAR_RE`. -/
def clear_match (s : List Char) : Bool :=
  altFullTail
    [lc "clear all", lc "clear everything", lc "reset all", lc "reset",
     lc "start over", lc "wipe all", lc "wipe everything", lc "erase all"]
    clearTailC s

/-- `_CLEAR_SIMPLE_RE`. -/
def clear_simple_match (s : List Char) : Bool :=
  altFullTail [lc "clear", lc "reset", lc "wipe"] clearTailC s

/-- An alternation of literals followed by `\b` with arbitrary rest
(the shape of `_IGNORE_RE`, whose body ends in `\b.*$`). -/
def altBAny (alts : List (List Char)) (s : List Char) : Bool :=
  alts.any (fun a =>
    match matchCI a s with
    | some r => wordBoundary a.getLast? r.head?
    | none => false)

/-- `_IGNORE_RE` alternatives (the apostrophe class `['’]` contributes
two variants for each `don't` phrase). -/
def ignoreAlts : List (List Char) :=
  List.flatten (List.map withTails
    [lc "don't include", lc "don’t include", lc "do not include",
     lc "don't add", lc "don’t add", lc "do not add",
     lc "ignore", lc "skip", lc "disregard", lc "omit"]) ++
  [lc "leave that out", lc "leave this out", lc "leave it out", lc "cancel that"] ++
  List.flatten (List.map withTails [lc "never mind", lc "nevermind"])

/-- `_IGNORE_RE`. -/
def ignore_match (s : List Char) : Bool :=
  altBAny ignoreAlts s

/-- `_IGNORE_TRAILING_RE` alternatives (this pattern only has the ASCII
apostrophe variants). -/
def ignoreTrailingAlts : List (List Char) :=
  List.flatten (List.map withTails
    [lc "ignore", lc "skip", lc "disregard", lc "omit",
     lc "don't include", lc "do not include", lc "don't add", lc "do not add",
     lc "never mind", lc "nevermind"])

/-- Does one trailing-ignore alternative match here, followed only by
whitespace up to the end (`\s*$`)? -/
def ignoreTrailingAt (s : List Char) : Bool :=
  ignoreTrailingAlts.any (fun a =>
    match matchCI a s with
    | some r => r.all isSpaceC
    | none => false)

/-- Scan for `_IGNORE_TRAILING_RE`: the lazy `.*?` prefix means the
pattern matches iff some position with a word boundary before it starts
a trailing-ignore phrase that runs to the end of the string.  (Inputs
are newline-free here, produced by `_normalize_spaces`.) -/
def ignoreTrailingScan : Option Char → List Char → Bool
  | _, [] => false
  | prev, c :: cs =>
    (wordBoundary prev (some c) && ignoreTrailingAt (c :: cs)) ||
      ignoreTrailingScan (some c) cs

/-- `_IGNORE_TRAILING_RE` (as a Boolean: `apply_heuristic` returns the
same result whether or not the `before` group is empty). -/
def ignore_trailing_match (s : List Char) : Bool :=
  ignoreTrailingScan none s

/-- Separator keywords of `_REPLACE_RE`, in alternation order. -/
def replaceSepKeywords : List (List Char) :=
  [lc "with", lc "to", lc "for"]

/-- Try `\s+(?:with|to|for)\s+(?P<replacement>.+)$` at this position;
returns the replacement group. -/
def replaceSepHere (s : List Char) : Option (List Char) :=
  let (sp, r1) := spanP isSpaceC s
  if sp.isEmpty then none
  else
    List.findSome? (fun w =>
      match matchCI w r1 with
      | some r2 =>
        let (sp2, r3) := spanP isSpaceC r2
        if sp2.isEmpty then none
        else if r3.isEmpty then none else some r3
      | none => none) replaceSepKeywords

/-- Lazy scan for the `target` group of `_REPLACE_RE`: the shortest
non-empty target followed by a separator wins. -/
def replaceScan (acc : List Char) : List Char → Option (List Char × List Char)
  | [] => none
  | c :: cs =>
    match replaceSepHere cs with
    | some repl => some ((c :: acc).reverse, repl)
    | none => replaceScan (c :: acc) cs

/-- `_REPLACE_RE`: `(target, replacement)` groups. -/
def replace_match (s : List Char) : Option (List Char × List Char) :=
  List.findSome? (fun kw =>
    match matchCI kw s with
    | some r =>
      let (sp, r1) := spanP isSpaceC r
      if sp.isEmpty then none else replaceScan [] r1
    | none => none) [lc "replace", lc "change", lc "swap"]

/-- `_SNIPPET_RE`.  The source writes the pattern as a raw string
containing `\\s+`, which is a literal backslash followed by one or more
(case-insensitive) letters `s` — not whitespace.  Returns the `name`
group. -/
def snippet_match (s : List Char) : Option (List Char) :=
  List.findSome? (fun kw =>
    match matchCI kw s with
    | some ('\\' :: r1) =>
      let (sRun, r2) := spanP (fun c => eqCI c 's') r1
      if sRun.isEmpty then none
      else if !r2.isEmpty then some r2
      else if sRun.length ≥ 2 then some (sRun.drop (sRun.length - 1))
      else none
    | _ => none) [lc "insert", lc "snippet", lc "shortcut"]

/-- `_resolve_snippet`: match the trigger pattern against the
normalized utterance and look the lower-cased name up in the snippets
map (whose keys the loader already lower-cased). -/
def resolve_snippet (snips : List (List Char × List Char)) (utt : List Char) :
    Option (List Char) :=
  match snippet_match (normalize_spaces utt) with
  | some name =>
    let key := lowerS (strip name)
    if key.isEmpty then none else lookupA snips key
  | none => none

/-- The punctuation class `[,.;:!?]` of the spacing patterns. -/
def isPunctC (c : Char) : Bool :=
  c = ',' || c = '.' || c = ';' || c = ':' || c = '!' || c = '?'

/-- Word-token characters of `_REPEATED_WORD_RE`: `[A-Za-z0-9']`
(39 is the ASCII apostrophe). -/
def isWordTokC (c : Char) : Bool := isAlphaC c || isDigitC c || c.toNat = 39

/-- Matcher for an alternation of literal words with `\b` on both sides
and a fixed replacement (shape of `_FILLER_PHRASE_RE` and
`_AGGRESSIVE_FILLER_RE`). -/
def altWordM (alts : List (List Char)) (repl : List Char) : Matcher := fun prev s =>
  match s.head? with
  | none => none
  | some c =>
    if !wordBoundary prev (some c) then none
    else
      alts.findSome? (fun a =>
        match matchCI a s with
        | some r =>
          if wordBoundary a.getLast? r.head? then some (a.length, repl) else none
        | none => none)

/-- `_FILLER_PHRASE_RE` alternatives. -/
def fillerPhraseAlts : List (List Char) :=
  [lc "you know", lc "i mean", lc "kind of", lc "sort of"]

/-- `_AGGRESSIVE_FILLER_RE` alternatives. -/
def aggressiveAlts : List (List Char) :=
  [lc "basically", lc "literally", lc "honestly", lc "actually", lc "like"]

/-- `_FILLER_WORD_RE` alternatives `uh+|um+|erm+|ah+|hmm+|mm+`, written
as a stem plus a greedily repeated final character (at least one). -/
def fillerWordSpecs : List (List Char × Char) :=
  [(lc "u", 'h'), (lc "u", 'm'), (lc "er", 'm'), (lc "a", 'h'),
   (lc "hm", 'm'), (lc "m", 'm')]

/-- `_FILLER_WORD_RE` as a matcher (replacement is a single space). -/
def fillerWordM : Matcher := fun prev s =>
  match s.head? with
  | none => none
  | some c =>
    if !wordBoundary prev (some c) then none
    else
      fillerWordSpecs.findSome? (fun spec =>
        match matchCI spec.1 s with
        | some r =>
          let (run, r2) := spanP (fun d => eqCI d spec.2) r
          if run.isEmpty then none
          else if wordBoundary (some spec.2) r2.head? then
            some (spec.1.length + run.length, lc " ")
          else none
        | none => none)

/-- One greedy repetition step `\s+X\b` for a captured group `X`
(case-insensitive back-reference followed by a word boundary); returns
the number of characters consumed. -/
def repOnce (w : List Char) (s : List Char) : Option Nat :=
  let (sp, r1) := spanP isSpaceC s
  if sp.isEmpty then none
  else
    match matchCI w r1 with
    | some r2 =>
      if wordBoundary w.getLast? r2.head? then some (sp.length + w.length) else none
    | none => none

/-- Greedy loop of `\s+X\b` repetitions. -/
def repLoop (w : List Char) : Nat → List Char → Nat
  | 0, _ => 0
  | fuel + 1, s =>
    match repOnce w s with
    | some n => n + repLoop w fuel (s.drop n)
    | none => 0

/-- All non-empty prefixes of a list, longest first (backtracking order
of a greedy character-class repetition). -/
def prefixesDesc (base : List Char) : List (List Char) :=
  (List.range base.length).map (fun k => base.take (base.length - k))

/-- `_REPEATED_WORD_RE`: `\b([A-Za-z][A-Za-z0-9']*)\b(?:\s+\1\b)+`,
replaced by the first word (its original case). -/
def repeatedWordM : Matcher := fun prev s =>
  match s.head? with
  | none => none
  | some c =>
    if !(isAlphaC c) then none
    else if !wordBoundary prev (some c) then none
    else
      let run := c :: s.tail.takeWhile isWordTokC
      (prefixesDesc run).findSome? (fun w =>
        let rest0 := s.drop w.length
        if !wordBoundary w.getLast? rest0.head? then none
        else
          match repOnce w rest0 with
          | some n =>
            some (w.length + n + repLoop w rest0.length (rest0.drop n), w)
          | none => none)

/-- `_REPEATED_PUNCT_RE`: `([,.;:!?])\1+`, replaced by the single
character. -/
def repeatedPunctM : Matcher := fun _ s =>
  match s with
  | c :: d :: rest =>
    if isPunctC c && d = c then
      some (2 + (rest.takeWhile (fun x => x = c)).length, [c])
    else none
  | _ => none

/-- Grab `extra` further `\s+\w+` groups after an accumulated phrase. -/
def grabMore : Nat → List Char → List Char → Option (List Char × List Char)
  | 0, acc, s => some (acc, s)
  | n + 1, acc, s =>
    let (sp, r1) := spanP isSpaceC s
    if sp.isEmpty then none
    else
      let (w, r2) := spanP isWordC r1
      if w.isEmpty then none else grabMore n (acc ++ sp ++ w) r2

/-- Grab a phrase of exactly `k` whitespace-separated `\w+` words. -/
def grabPhrase (k : Nat) (s : List Char) : Option (List Char × List Char) :=
  let (w1, r1) := spanP isWordC s
  if w1.isEmpty then none else grabMore (k - 1) w1 r1

/-- The repeated-phrase pattern of `_dedupe_repeated_phrases`:
`\b(\w+(?:\s+\w+){1,3})\b(?:\s+\1\b)+`, replaced by the phrase (greedy:
four-word phrases are tried before three- and two-word ones). -/
def dedupePhraseM : Matcher := fun prev s =>
  match s.head? with
  | none => none
  | some c =>
    if !isWordC c then none
    else if !wordBoundary prev (some c) then none
    else
      [4, 3, 2].findSome? (fun k =>
        match grabPhrase k s with
        | some (ph, rest0) =>
          if !wordBoundary ph.getLast? rest0.head? then none
          else
            match repOnce ph rest0 with
            | some n =>
              some (ph.length + n + repLoop ph rest0.length (rest0.drop n), ph)
            | none => none
        | none => none)

/-- `re.sub(r"\s+([,.;:!?])", r"\1", ...)`. -/
def spaceBeforePunctM : Matcher := fun _ s =>
  let (sp, r) := spanP isSpaceC s
  if sp.isEmpty then none
  else
    match r with
    | c :: _ => if isPunctC c then some (sp.length + 1, [c]) else none
    | [] => none

/-- `re.sub(r"([,.;:!?])([^\s])", r"\1 \2", ...)` (non-overlapping:
scanning resumes after the second character, as in Python). -/
def punctNoSpaceM : Matcher := fun _ s =>
  match s with
  | c :: d :: _ =>
    if isPunctC c && !isSpaceC d then some (2, [c, ' ', d]) else none
  | _ => none

/-- `re.sub(r"\s{2,}", " ", ...)`. -/
def multiSpaceM : Matcher := fun _ s =>
  let (sp, _) := spanP isSpaceC s
  if sp.length ≥ 2 then some (sp.length, [' ']) else none

/-- Module-level configuration (environment variables read at import
time), already validated and lower-cased as the module top level does. -/
structure Config where
  cleanupLevel : String
  strictness : String
  confThreshold : ℚ
  adaptiveMinCount : Nat
  userAdaptation : Bool

/-- The configuration when no environment variable is set:
`CLEANUP_LEVEL` defaults to the string `"aggressive"`,
`CLEANUP_STRICTNESS` to `"balanced"`, the confidence threshold to
`0.65`, `ADAPTIVE_MIN_COUNT` to `2`, adaptation enabled. -/
def defaultConfig : Config :=
  { cleanupLevel := "aggressive", strictness := "balanced",
    confThreshold := 13 / 20, adaptiveMinCount := 2, userAdaptation := true }

/-- Is the confidence present and below the threshold? -/
def confBelow (cfg : Config) (conf : Option ℚ) : Bool :=
  match conf with
  | some q => decide (q < cfg.confThreshold)
  | none => false

/-- Is the confidence present and at or above the threshold? -/
def confAtLeast (cfg : Config) (conf : Option ℚ) : Bool :=
  match conf with
  | some q => decide (cfg.confThreshold ≤ q)
  | none => false

/-- `_effective_cleanup_level` (with the `cleanup_level` argument left
at its default `None`, as on every call path modelled here). -/
def effective_cleanup_level (cfg : Config) (conf : Option ℚ) : String :=
  let level0 := cfg.cleanupLevel
  let level1 :=
    if level0 = "basic" ∨ level0 = "balanced" ∨ level0 = "aggressive" then level0
    else "balanced"
  let level2 :=
    if cfg.strictness = "conservative" then
      if level1 = "aggressive" then "balanced"
      else if level1 = "balanced" ∧ confBelow cfg conf then "basic"
      else level1
    else if cfg.strictness = "aggressive" then
      if level1 = "balanced" ∧ confAtLeast cfg conf then "aggressive" else level1
    else level1
  if confBelow cfg conf ∧ level2 = "aggressive" then "balanced" else level2

/-- `_cleanup_disfluencies` (with `cleanup_level=None`). -/
def cleanup_disfluencies (cfg : Config) (conf : Option ℚ) (text : List Char) :
    List Char :=
  let cleaned := normalize_spaces text
  if cleaned.isEmpty then []
  else
    let level := effective_cleanup_level cfg conf
    let c1 := subAll (altWordM fillerPhraseAlts (lc " ")) cleaned
    let c2 := subAll fillerWordM c1
    let c3 := if level = "aggressive" then subAll (altWordM aggressiveAlts (lc " ")) c2 else c2
    let c4 := subAll repeatedWordM c3
    let c5 := subAll repeatedPunctM c4
    let c6 := if level = "aggressive" then subAll dedupePhraseM c5 else c5
    let c7 := subAll spaceBeforePunctM c6
    let c8 := subAll punctNoSpaceM c7
    strip (subAll multiSpaceM c8)

/-- `QUESTION_STARTERS`. -/
def questionStarters : List (List Char) :=
  [lc "what", lc "why", lc "how", lc "when", lc "where", lc "who", lc "whom",
   lc "whose", lc "which", lc "is", lc "are", lc "am", lc "do", lc "does",
   lc "did", lc "can", lc "could", lc "would", lc "should", lc "will",
   lc "have", lc "has", lc "had"]

/-- `EXCLAMATION_STARTERS`. -/
def exclamationStarters : List (List Char) :=
  [lc "wow", lc "great", lc "awesome", lc "amazing", lc "congrats",
   lc "congratulations"]

/-- Characters of the first-word pattern `[A-Za-z']+`. -/
def isAlphaApC (c : Char) : Bool := isAlphaC c || c.toNat = 39

/-- `re.search(r"[A-Za-z']+", text)`: the first maximal run. -/
def firstWordRun : List Char → List Char
  | [] => []
  | c :: cs =>
    if isAlphaApC c then (c :: cs).takeWhile isAlphaApC else firstWordRun cs

/-- `_terminal_punctuation`. -/
def terminal_punctuation (text : List Char) : List Char :=
  if text.isEmpty then lc "."
  else
    let fw := lowerS (firstWordRun text)
    if questionStarters.contains fw then lc "?"
    else if exclamationStarters.contains fw then lc "!"
    else lc "."

/-- Is this character a sentence terminator (`.!?`)? -/
def isTermC (c : Char) : Bool := c = '.' || c = '!' || c = '?'

/-- Does the optional last character exist and terminate a sentence? -/
def isTermO : Option Char → Bool
  | some c => isTermC c
  | none => false

/-- The fold of `_capitalize_sentences`: upper-case the first letter at
the start and after each sentence terminator. -/
def capSentencesAux (capNext : Bool) : List Char → List Char
  | [] => []
  | c :: cs =>
    let doCap := capNext && isAlphaC c
    let c' := if doCap then pyUpperC c else c
    let next := if isTermC c then true else if doCap then false else capNext
    c' :: capSentencesAux next cs

/-- `_capitalize_sentences`. -/
def capitalize_sentences (s : List Char) : List Char := capSentencesAux true s

/-- `_polish_punctuation`. -/
def polish_punctuation (text : List Char) : List Char :=
  let cleaned := normalize_spaces text
  if cleaned.isEmpty then []
  else
    let c1 := subAll spaceBeforePunctM cleaned
    let c2 := subAll punctNoSpaceM c1
    let c3 := capitalize_sentences c2
    let lastIsTerm := isTermO c3.getLast?
    if !c3.isEmpty && !lastIsTerm then c3 ++ terminal_punctuation c3
    else c3

/-- `_CONTENT_FILLER_RE` words (exact words here, unlike the filler-word
pattern). -/
def contentFillerWords : List (List Char) :=
  [lc "uh", lc "um", lc "erm", lc "ah", lc "hmm"]

/-- One unit of `_CONTENT_FILLER_RE` (same separator class as the
preface pattern). -/
def contentFillerUnit (s : List Char) : Option (List Char) :=
  match firstAltB contentFillerWords s with
  | some r => some (r.dropWhile prefaceSepC)
  | none => none

/-- Greedy repetition of content-filler units. -/
def contentFillerLoop : Nat → List Char → List Char
  | 0, s => s
  | fuel + 1, s =>
    match contentFillerUnit s with
    | some r => contentFillerLoop fuel r
    | none => s

/-- `_CONTENT_FILLER_RE.sub("", cleaned, count=1).strip()`. -/
def stripContentFiller (s : List Char) : List Char :=
  match contentFillerUnit s with
  | some r => strip (contentFillerLoop s.length r)
  | none => strip s

/-- `_normalize_segment`. -/
def normalize_segment (cfg : Config) (conf : Option ℚ) (text : List Char) :
    List Char :=
  let cleaned := normalize_spaces text
  let cleaned2 := stripContentFiller cleaned
  polish_punctuation (cleanup_disfluencies cfg conf cleaned2)

/-- `\b target \b` at the current position (case-insensitive literal,
word boundaries computed from the target's own edge characters);
returns the rest after the match. -/
def wbMatchAt (tgt : List Char) (prev : Option Char) (s : List Char) :
    Option (List Char) :=
  match s.head?, matchCI tgt s with
  | some c, some r =>
    if wordBoundary prev (some c) && wordBoundary tgt.getLast? r.head? then some r
    else none
  | _, _ => none

/-- Scan for the last non-overlapping `\b tgt \b` match
(`finditer` order: leftmost matches found first, scanning resumes after
each match); returns the text before and after that match. -/
def rlScan (tgt : List Char) :
    Nat → Option Char → List Char → List Char →
      Option (List Char × List Char) → Option (List Char × List Char)
  | 0, _, _, _, found => found
  | fuel + 1, prev, s, accRev, found =>
    match s with
    | [] => found
    | c :: cs =>
      match wbMatchAt tgt prev (c :: cs) with
      | some r =>
        let consumed := (c :: cs).take tgt.length
        rlScan tgt fuel consumed.getLast? r (consumed.reverse ++ accRev)
          (some (accRev.reverse, r))
      | none => rlScan tgt fuel (some c) cs (c :: accRev) found

/-- `_replace_last_case_insensitive`. -/
def replace_last_case_insensitive (text tgt repl : List Char) : List Char :=
  if text.isEmpty || tgt.isEmpty then text
  else
    match rlScan tgt text.length none text [] none with
    | some (pre, post) => pre ++ repl ++ post
    | none => text

/-- `re.sub(escape(pat), repl, text, count=1)` with `IGNORECASE`:
replace the leftmost case-insensitive occurrence only. -/
def subFirstCI (pat repl : List Char) : List Char → List Char
  | [] => []
  | c :: cs =>
    match matchCI pat (c :: cs) with
    | some r => repl ++ r
    | none => c :: subFirstCI pat repl cs

/-- Matcher for a word-bounded case-insensitive literal key of the
personal dictionary. -/
def wbLiteralM (k v : List Char) : Matcher := fun prev s =>
  match wbMatchAt k prev s with
  | some _ => some (k.length, v)
  | none => none

/-- Matcher for a plain case-insensitive literal key. -/
def literalM (k v : List Char) : Matcher := fun _ s =>
  match matchCI k s with
  | some _ => some (k.length, v)
  | none => none

/-- `_DEFAULT_DICTIONARY`. -/
def defaultDictionary : List (List Char × List Char) := [(lc "adelant", lc "Adelant")]

/-- `_personal_dictionary`: the built-in defaults updated with the
loaded user data (keys already lower-cased by the loader). -/
def personal_dictionary (personalData : List (List Char × List Char)) :
    List (List Char × List Char) :=
  dictUpdate defaultDictionary personalData

/-- One adaptive-dictionary entry: replacement text and repeat count. -/
structure AdaptiveEntry where
  toText : List Char
  count : Nat
deriving DecidableEq, Repr

/-- The adaptive store (`global` and per-app sections), the in-memory
value of the JSON file threaded through the functions that read or
write it. -/
structure AdaptiveStore where
  globalMap : List (List Char × AdaptiveEntry)
  apps : List (List Char × List (List Char × AdaptiveEntry))
deriving DecidableEq, Repr

/-- The store when the adaptive file is absent. -/
def emptyStore : AdaptiveStore := { globalMap := [], apps := [] }

/-- `_adaptive_dictionary`: entries whose count reached the promotion
threshold, global section first, then the per-app section overriding. -/
def adaptive_dictionary (cfg : Config) (store : AdaptiveStore)
    (appId : Option (List Char)) : List (List Char × List Char) :=
  if !cfg.userAdaptation then []
  else
    let fromSection := fun (sec : List (List Char × AdaptiveEntry)) =>
      sec.filterMap (fun p =>
        if p.2.count ≥ cfg.adaptiveMinCount then some (p.1, p.2.toText) else none)
    let base := fromSection store.globalMap
    let appKey := lowerS (normalize_spaces (appId.getD []))
    let merged :=
      if !appKey.isEmpty then
        match lookupA store.apps appKey with
        | some sec => dictUpdate base (fromSection sec)
        | none => base
      else base
    merged.filter (fun p => !p.1.isEmpty && !p.2.isEmpty)

/-- `_learn_adaptive_replacement`: bump the count (creating the entry
with the `setdefault` dance of the source) and store the replacement. -/
def learn_adaptive_replacement (cfg : Config) (store : AdaptiveStore)
    (target replacement : List Char) (appId : Option (List Char)) : AdaptiveStore :=
  if !cfg.userAdaptation then store
  else
    let targetKey := lowerS (normalize_spaces target)
    let replacementClean := normalize_spaces replacement
    if targetKey.isEmpty || replacementClean.isEmpty then store
    else if targetKey = lowerS replacementClean then store
    else
      let appKey := lowerS (normalize_spaces (appId.getD []))
      if !appKey.isEmpty then
        let bucket := (lookupA store.apps appKey).getD []
        let entry := (lookupA bucket targetKey).getD ⟨replacementClean, 0⟩
        let bucket' := updateA bucket targetKey ⟨replacementClean, entry.count + 1⟩
        { store with apps := updateA store.apps appKey bucket' }
      else
        let entry := (lookupA store.globalMap targetKey).getD ⟨replacementClean, 0⟩
        { store with
          globalMap := updateA store.globalMap targetKey ⟨replacementClean, entry.count + 1⟩ }

/-- Key shape test `^[A-Za-z0-9]+$` deciding between word-bounded and
plain substitution in `_apply_personal_dictionary`. -/
def isAlnumKey (k : List Char) : Bool :=
  !k.isEmpty && k.all (fun c => isAlphaC c || isDigitC c)

/-- One dictionary entry applied to the text (all occurrences,
case-insensitive, word-bounded for alphanumeric keys). -/
def dictEntrySub (text k v : List Char) : List Char :=
  if isAlnumKey k then subAll (wbLiteralM k v) text else subAll (literalM k v) text

/-- `_apply_personal_dictionary`: merge defaults, user data and the
promoted adaptive entries, then substitute every entry in order. -/
def apply_personal_dictionary (cfg : Config) (store : AdaptiveStore)
    (personalData : List (List Char × List Char)) (appId : Option (List Char))
    (text : List Char) : List Char :=
  let mapping := personal_dictionary personalData
  let mapping :=
    if cfg.userAdaptation then dictUpdate mapping (adaptive_dictionary cfg store appId)
    else mapping
  if mapping.isEmpty || text.isEmpty then text
  else
    mapping.foldl (fun acc p => if p.1.isEmpty then acc else dictEntrySub acc p.1 p.2) text

/-- The class `[\s,:-]` trailing the remainder-preamble patterns. -/
def leadClassC (c : Char) : Bool := isSpaceC c || c = ',' || c = ':' || c = '-'

/-- `re.sub(r"^(?:alts)\b[\s,:-]*", "", rest)` (the pattern is anchored,
so at most one substitution happens). -/
def stripLeadAlt (alts : List (List Char)) (s : List Char) : List Char :=
  match firstAltB alts s with
  | some r => r.dropWhile leadClassC
  | none => s

/-- Continuations after an optional `word\s+` group, greedy first. -/
def optWord (w : List Char) (s : List Char) : List (List Char) :=
  match matchCI w s with
  | some r =>
    let (sp, r2) := spanP isSpaceC r
    if sp.isEmpty then [s] else [r2, s]
  | none => [s]

/-- `re.sub(r"^(?:and\s+)?(?:please\s+)?(?:write|say|type)\b[\s,:-]*", "", rest)`. -/
def stripWritePreamble (s : List Char) : List Char :=
  let cands := (optWord (lc "and") s).flatMap (optWord (lc "please"))
  match cands.findSome? (fun c => firstAltB [lc "write", lc "say", lc "type"] c) with
  | some r => r.dropWhile leadClassC
  | none => s

/-- `_clean_remainder`. -/
def clean_remainder (cfg : Config) (store : AdaptiveStore)
    (personalData : List (List Char × List Char)) (appId : Option (List Char))
    (conf : Option ℚ) (text : List Char) : List Char :=
  let rest := normalize_spaces text
  let rest := lstripSet (lc " ,.:;!-") rest
  let rest := stripLeadAlt [lc "and", lc "then", lc "instead"] rest
  let rest := stripWritePreamble rest
  let rest := stripLeadAlt [lc "and", lc "then"] rest
  let rest := apply_personal_dictionary cfg store personalData appId rest
  normalize_segment cfg conf rest

/-- A keyword alternation followed by `\s+` and a non-empty value group
running to the end (`_TONE_SET_RE` / `_LANG_SET_RE` shapes). -/
def keywordThenValue (kws : List (List Char)) (s : List Char) : Option (List Char) :=
  kws.findSome? (fun kw =>
    match matchCI kw s with
    | some r =>
      let (sp, r1) := spanP isSpaceC r
      if sp.isEmpty then none else if r1.isEmpty then none else some r1
    | none => none)

/-- `_POLITE_ONLY_RE`. -/
def polite_only_match (s : List Char) : Bool :=
  [lc "polite", lc "formal", lc "casual", lc "friendly", lc "concise"].any (fun kw =>
    match matchCI kw s with
    | some r =>
      let (sp, r1) := spanP isSpaceC r
      if sp.isEmpty then false
      else
        match matchCI (lc "tone") r1 with
        | some r2 => wordBoundary (some 'e') r2.head?
        | none => false
    | none => false)

/-- A detected settings command. -/
inductive SettingCmd where
  | tone (value : List Char)
  | language (value : List Char)
deriving DecidableEq, Repr

/-- `_detect_setting_command`. -/
def detect_setting_command (utt : List Char) : Option SettingCmd :=
  let n := normalize_spaces utt
  if n.isEmpty then none
  else
    match keywordThenValue [lc "tone", lc "style", lc "voice"] n with
    | some v => some (.tone (lowerS (strip v)))
    | none =>
      if polite_only_match n then some (.tone (lowerS (strip ((splitWS n).headD []))))
      else
        match keywordThenValue [lc "language", lc "lang"] n with
        | some v => some (.language (lowerS (strip v)))
        | none => none

/-- `_GRAMMAR_RE`. -/
def grammar_match (s : List Char) : Bool :=
  [lc "fix", lc "correct"].any (fun kw =>
    match matchCI kw s with
    | some r =>
      let (sp, r1) := spanP isSpaceC r
      if sp.isEmpty then false
      else
        let targets := [lc "grammar", lc "spelling", lc "punctuation"]
        let withThe :=
          match matchCI (lc "the") r1 with
          | some r2 =>
            let (sp2, r3) := spanP isSpaceC r2
            if sp2.isEmpty then false else (firstAltB targets r3).isSome
          | none => false
        withThe || (firstAltB targets r1).isSome
    | none => false)

/-- `_REWRITE_RE` keyword alternatives (`make(?: it)?` expands greedily). -/
def rewriteKeywords : List (List Char) :=
  [lc "rewrite", lc "rephrase", lc "polish", lc "improve", lc "make it", lc "make"]

/-- `_REWRITE_RE` tone alternatives. -/
def rewriteTones : List (List Char) :=
  [lc "formal", lc "polite", lc "casual", lc "friendly", lc "concise",
   lc "professional", lc "natural"]

/-- `_REWRITE_RE`: returns the `tone` group (possibly empty). -/
def rewrite_match (s : List Char) : Option (List Char) :=
  rewriteKeywords.findSome? (fun kw =>
    match matchCI kw s with
    | some r =>
      let (sp, r1) := spanP isSpaceC r
      if sp.isEmpty then none
      else
        match rewriteTones.findSome? (fun t =>
          match matchCI t r1 with
          | some r2 => if wordBoundary t.getLast? r2.head? then some t else none
          | none => none) with
        | some t => some t
        | none =>
          match r1.head? with
          | some c => if isWordC c then some [] else none
          | none => none
    | none => none)

/-- Leading alternatives of the rewrite-tone search patterns. -/
def rewriteLeadAlts : List (List Char) :=
  [lc "make it", lc "rewrite", lc "rephrase"]

/-- `_POLITE_REWRITE_RE` at one position. -/
def politeRewriteAt (s : List Char) : Option (List Char) :=
  rewriteLeadAlts.findSome? (fun a =>
    match matchCI a s with
    | some r =>
      let (sp, r1) := spanP isSpaceC r
      if sp.isEmpty then none
      else
        match matchCI (lc "more") r1 with
        | some r2 =>
          let (sp2, r3) := spanP isSpaceC r2
          if sp2.isEmpty then none
          else
            [lc "polite", lc "formal", lc "casual", lc "friendly"].findSome? (fun t =>
              match matchCI t r3 with
              | some r4 => if wordBoundary t.getLast? r4.head? then some t else none
              | none => none)
        | none => none
    | none => none)

/-- `re.search` scan for `_POLITE_REWRITE_RE` (the pattern opens with
`\b`). -/
def politeRewriteScan : Option Char → List Char → Option (List Char)
  | _, [] => none
  | prev, c :: cs =>
    match (if wordBoundary prev (some c) then politeRewriteAt (c :: cs) else none) with
    | some t => some t
    | none => politeRewriteScan (some c) cs

/-- `_FORMAL_REWRITE_RE` at one position. -/
def formalRewriteAt (s : List Char) : Bool :=
  rewriteLeadAlts.any (fun a =>
    match matchCI a s with
    | some r =>
      let (sp, r1) := spanP isSpaceC r
      if sp.isEmpty then false
      else
        match matchCI (lc "formal") r1 with
        | some r2 => wordBoundary (some 'l') r2.head?
        | none => false
    | none => false)

/-- `re.search` scan for `_FORMAL_REWRITE_RE`. -/
def formalRewriteScan : Option Char → List Char → Bool
  | _, [] => false
  | prev, c :: cs =>
    (wordBoundary prev (some c) && formalRewriteAt (c :: cs)) ||
      formalRewriteScan (some c) cs

/-- A detected transform command. -/
inductive TransformCmd where
  | grammar
  | rewrite (tone : List Char)
deriving DecidableEq, Repr

/-- `_detect_transform_command`. -/
def detect_transform_command (utt : List Char) : Option TransformCmd :=
  let n := normalize_spaces utt
  if n.isEmpty then none
  else if grammar_match n then some .grammar
  else
    match rewrite_match n with
    | some tone0 =>
      let t1 := lowerS (strip tone0)
      let t2 :=
        if t1.isEmpty then
          match politeRewriteScan none n with
          | some t => t
          | none => if formalRewriteScan none n then lc "formal" else []
        else t1
      some (.rewrite t2)
    | none => none

/-- The advanced-delete command pattern used by `needs_intent_handling`:
`^(?:undo|delete|remove)\s+last\s+(?:sentence|paragraph)\b`. -/
def adv_delete_cmd_match (s : List Char) : Bool :=
  [lc "undo", lc "delete", lc "remove"].any (fun kw =>
    match matchCI kw s with
    | some r =>
      let (sp, r1) := spanP isSpaceC r
      if sp.isEmpty then false
      else
        match matchCI (lc "last") r1 with
        | some r2 =>
          let (sp2, r3) := spanP isSpaceC r2
          if sp2.isEmpty then false
          else (firstAltB [lc "sentence", lc "paragraph"] r3).isSome
        | none => false
    | none => false)

/-- The formatting-command alternatives of `needs_intent_handling` and
their shared word-boundary suffix. -/
def fmtAlts : List (List Char) :=
  [lc "capitalize that", lc "capitalize last", lc "make it a heading",
   lc "heading format", lc "make it bold", lc "bold format",
   lc "make it italic", lc "italic format"]

/-- The anchored formatting-command pattern of `needs_intent_handling`. -/
def fmt_cmd_match (s : List Char) : Bool := altBAny fmtAlts s

/-- `needs_intent_handling`. -/
def needs_intent_handling (utt : List Char) : Bool :=
  let n := normalize_spaces utt
  if n.isEmpty then false
  else
    let ct := strip_command_preface n
    if ct.isEmpty then false
    else if clear_match ct || clear_simple_match ct then true
    else if ignore_match ct || ignore_trailing_match ct then true
    else if (undo_match ct).isSome then true
    else if (replace_match ct).isSome then true
    else if (detect_transform_command ct).isSome then true
    else if (detect_setting_command ct).isSome then true
    else
      let lower := lowerS ct
      if adv_delete_cmd_match lower then true
      else if fmt_cmd_match lower then true
      else false

/-- First character class of the correction tokens
(`[A-Za-z0-9]`). -/
def tokFirstC (c : Char) : Bool := isAlphaC c || isDigitC c

/-- Continuation class of the correction tokens (`[A-Za-z0-9+#.\-]`). -/
def tokRestC (c : Char) : Bool :=
  isAlphaC c || isDigitC c || c = '+' || c = '#' || c = '.' || c = '-'

/-- `\s*,?\s*`: maximal whitespace, an optional comma, maximal
whitespace (the next construct of every use site starts with an
alphanumeric character, so the greedy consumption is exact). -/
def sepCommaSpaces (s : List Char) : List Char :=
  let r1 := (spanP isSpaceC s).2
  match r1 with
  | c :: r2 => if c = ',' then (spanP isSpaceC r2).2 else r1
  | [] => r1

/-- Token run (greedy candidate base) at the head of a string. -/
def tokRunAt (s : List Char) : Option (List Char) :=
  match s.head? with
  | some c => if tokFirstC c then some (c :: s.tail.takeWhile tokRestC) else none
  | none => none

/-- `_USE_NOT_USE_INLINE_RE` as a `subAll` matcher; replacement is
`lemma right` with the original matched case of both groups. -/
def useNotUseM : Matcher := fun prev s =>
  match s.head? with
  | none => none
  | some c =>
    if !wordBoundary prev (some c) then none
    else
      [lc "use", lc "using"].findSome? (fun kw =>
        match matchCI kw s with
        | some r0 =>
          let lemmaText := s.take kw.length
          let (sp1, r1) := spanP isSpaceC r0
          if sp1.isEmpty then none
          else
            match tokRunAt r1 with
            | none => none
            | some run =>
              (prefixesDesc run).findSome? (fun wrongText =>
                let r2 := r1.drop wrongText.length
                let r3 := sepCommaSpaces r2
                match matchCI (lc "not") r3 with
                | some r4 =>
                  let (sp2, r5) := spanP isSpaceC r4
                  if sp2.isEmpty then none
                  else
                    match matchCI wrongText r5 with
                    | some r6 =>
                      let r7 := sepCommaSpaces r6
                      let withConn :=
                        [lc "use", lc "using", lc "with"].findSome? (fun cw =>
                          match matchCI cw r7 with
                          | some r8 =>
                            let (sp3, r9) := spanP isSpaceC r8
                            if sp3.isEmpty then none else some r9
                          | none => none)
                      let tryRight := fun (rr : List Char) =>
                        match tokRunAt rr with
                        | some rightRun => some (rightRun, rr.drop rightRun.length)
                        | none => none
                      let cand :=
                        match withConn with
                        | some r9 =>
                          match tryRight r9 with
                          | some pr => some pr
                          | none => tryRight r7
                        | none => tryRight r7
                      match cand with
                      | some (rightText, restF) =>
                        some (s.length - restF.length, lemmaText ++ lc " " ++ rightText)
                      | none => none
                    | none => none
                | none => none)
        | none => none)

/-- `_rewrite_not_use_inline`. -/
def rewrite_not_use_inline (text : List Char) : List Char :=
  subAll useNotUseM text

/-- `_NEGATION_REPLACEMENT_RE` (anchored at both ends): returns the
`(wrong, right)` groups.  A greedy `wrong` group backtracks character by
character, and a greedy `right` group backtracks against the optional
final terminator. -/
def negation_match (s : List Char) : Option (List Char × List Char) :=
  match matchCI (lc "not") s with
  | some r0 =>
    let (sp1, r1) := spanP isSpaceC r0
    if sp1.isEmpty then none
    else
      match tokRunAt r1 with
      | none => none
      | some run =>
        (prefixesDesc run).findSome? (fun wrongText =>
          let r2 := r1.drop wrongText.length
          let r3 := r2.dropWhile (fun c => isSpaceC c || c = ',')
          let withConn :=
            [lc "use", lc "using", lc "with", lc "but", lc "instead",
             lc "rather"].findSome? (fun cw =>
              match matchCI cw r3 with
              | some r4 =>
                let (sp2, r5) := spanP isSpaceC r4
                if sp2.isEmpty then none else some r5
              | none => none)
          let tryRight := fun (rr : List Char) =>
            match tokRunAt rr with
            | some rightRun =>
              (prefixesDesc rightRun).findSome? (fun rightText =>
                match rr.drop rightText.length with
                | [] => some rightText
                | [t] => if isTermC t || t = '?' then some rightText else none
                | _ => none)
            | none => none
          match withConn with
          | some r5 =>
            match tryRight r5 with
            | some rt => some (wrongText, rt)
            | none => (tryRight r3).map (fun rt => (wrongText, rt))
          | none => (tryRight r3).map (fun rt => (wrongText, rt)))
  | none => none

/-- `_rewrite_previous_clause`. -/
def rewrite_previous_clause (previous correction : List Char) : Option (List Char) :=
  match negation_match (normalize_spaces correction) with
  | some (wrong, right) =>
    let rewritten := replace_last_case_insensitive previous wrong right
    if rewritten = previous then none else some (normalize_spaces rewritten)
  | none => none

/-- Greedy `(?:(?:oh|uh|um)\s+)*` loop of `_INLINE_CORRECTION_RE`. -/
def icLeadLoop : Nat → List Char → List Char
  | 0, s => s
  | fuel + 1, s =>
    match [lc "oh", lc "uh", lc "um"].findSome? (fun w =>
      match matchCI w s with
      | some r =>
        let (sp, r1) := spanP isSpaceC r
        if sp.isEmpty then none else some r1
      | none => none) with
    | some r1 => icLeadLoop fuel r1
    | none => s

/-- Candidate rests after `(?:\s*,?\s*no)*` chain iterations, most
iterations first (greedy star with backtracking for the following
`\b`). -/
def noChainCands : Nat → List Char → List (List Char)
  | 0, s => [s]
  | fuel + 1, s =>
    let r1 := sepCommaSpaces s
    match matchCI (lc "no") r1 with
    | some r2 => noChainCands fuel r2 ++ [s]
    | none => [s]

/-- `_INLINE_CORRECTION_RE.match`: on success return the text after the
match end (the marker, including its trailing `[\s,:\-]*`, removed). -/
def inlineCorrectionRemainder (s : List Char) : Option (List Char) :=
  let s1 := (spanP isSpaceC s).2
  let s2 := icLeadLoop s1.length s1
  let tailAfter := fun (lastC : Option Char) (r : List Char) =>
    if wordBoundary lastC r.head? then some (r.dropWhile leadClassC) else none
  let noPath :=
    match matchCI (lc "no") s2 with
    | some r0 => (noChainCands r0.length r0).findSome? (fun r => tailAfter (some 'o') r)
    | none => none
  match noPath with
  | some rem => some rem
  | none =>
    [lc "nope", lc "sorry", lc "i mean", lc "actually"].findSome? (fun a =>
      match matchCI a s2 with
      | some r => tailAfter a.getLast? r
      | none => none)

/-- Stop words of `_significant_tokens`. -/
def stopwords : List (List Char) :=
  [lc "the", lc "and", lc "for", lc "with", lc "that", lc "this", lc "have",
   lc "from", lc "your", lc "just", lc "really", lc "very", lc "like",
   lc "then", lc "there", lc "here", lc "what", lc "when", lc "where",
   lc "which", lc "would", lc "could", lc "should", lc "into", lc "about",
   lc "been", lc "were", lc "they", lc "them", lc "their", lc "i", lc "you",
   lc "we", lc "he", lc "she", lc "it", lc "my", lc "our", lc "his", lc "her",
   lc "its", lc "not"]

/-- Maximal runs of a character class (`re.findall` of `[class]+`). -/
def runsAux (p : Char → Bool) : List Char → List Char → List (List Char)
  | [], acc => if acc.isEmpty then [] else [acc.reverse]
  | c :: cs, acc =>
    if p c then runsAux p cs (c :: acc)
    else if acc.isEmpty then runsAux p cs []
    else acc.reverse :: runsAux p cs []

/-- `_significant_tokens` (as a list; only membership is ever used). -/
def significant_tokens (text : List Char) : List (List Char) :=
  (runsAux (fun c => isAlphaC c || isDigitC c || c.toNat = 39) (lowerS text) []).filter
    (fun w => w.length > 2 && !stopwords.contains w)

/-- Non-empty intersection of significant-token sets. -/
def tokensOverlap (a b : List Char) : Bool :=
  (significant_tokens a).any (fun t => (significant_tokens b).contains t)

/-- `re.findall(r"[^.?!]+[.?!]?", text)`: maximal terminator-free chunks
with one optional following terminator; lone terminators between
matches are skipped. -/
def clausesAux : Nat → List Char → List (List Char)
  | 0, _ => []
  | _ + 1, [] => []
  | fuel + 1, c :: cs =>
    if isTermC c then clausesAux fuel cs
    else
      let (chunk, rest) := spanP (fun d => !isTermC d) (c :: cs)
      match rest with
      | t :: rest2 => (chunk ++ [t]) :: clausesAux fuel rest2
      | [] => [chunk]

/-- The clause chunks of `_apply_inline_corrections`. -/
def clauseChunks (s : List Char) : List (List Char) :=
  clausesAux s.length s

/-- Upper-case the first alphabetic character when it is lower case
(the overlap-replacement path of `_apply_inline_corrections`). -/
def capitalizeFirstAlpha : List Char → List Char
  | [] => []
  | c :: cs =>
    if isAlphaC c then (if isLowerC c then pyUpperC c else c) :: cs
    else c :: capitalizeFirstAlpha cs

/-- Join with single spaces (`" ".join`). -/
def joinSp (l : List (List Char)) : List Char :=
  List.intercalate (lc " ") l

/-- One clause step of `_apply_inline_corrections`. -/
def aicStep (corrected : List (List Char)) (clause : List Char) : List (List Char) :=
  let cc := normalize_spaces clause
  match inlineCorrectionRemainder cc with
  | none => corrected ++ [cc]
  | some rem0 =>
    if corrected.isEmpty then corrected ++ [cc]
    else
      let remainder := rewrite_not_use_inline (normalize_spaces rem0)
      if remainder.isEmpty then corrected
      else
        let last := (corrected.getLast?).getD []
        let prevs := corrected.dropLast
        match rewrite_previous_clause last remainder with
        | some rp => prevs ++ [rp]
        | none =>
          if tokensOverlap last remainder then prevs ++ [capitalizeFirstAlpha remainder]
          else corrected ++ [cc]

/-- `_apply_inline_corrections`. -/
def apply_inline_corrections (text : List Char) : List Char :=
  let t := rewrite_not_use_inline (normalize_spaces text)
  let clauses := (clauseChunks t).filterMap (fun p =>
    let s := strip p
    if s.isEmpty then none else some s)
  if clauses.isEmpty then t
  else normalize_spaces (rewrite_not_use_inline (joinSp (clauses.foldl aicStep [])))

/-- `_dedupe_overlap`: drop the head tokens of the new segment that
duplicate the tail tokens of the previous output (window 3, 2, 1,
longest match wins). -/
def dedupe_overlap (prev_output segment : List Char) : List Char :=
  if prev_output.isEmpty || segment.isEmpty then segment
  else
    let pt := splitWS prev_output
    let st := splitWS segment
    if pt.isEmpty || st.isEmpty then segment
    else
      let mc := min 3 (min pt.length st.length)
      match (List.range mc).findSome? (fun i =>
        let size := mc - i
        if pt.drop (pt.length - size) = st.take size then
          some (strip (joinSp (st.drop size)))
        else none) with
      | some r => r
      | none => segment

/-- `TranscriptState` (the lock is concurrency plumbing, not state). -/
structure TranscriptState where
  segments : List (List Char)
  output_text : List Char
deriving DecidableEq, Repr

/-- Case-sensitive prefix test. -/
def startsWith : List Char → List Char → Bool
  | [], _ => true
  | _ :: _, [] => false
  | p :: ps, c :: cs => p = c && startsWith ps cs

/-- Case-sensitive substring containment (Python `in` on strings). -/
def containsSub (needle : List Char) : List Char → Bool
  | [] => startsWith needle []
  | c :: cs => startsWith needle (c :: cs) || containsSub needle cs

/-- `re.split(r"(?<=[.!?])\s+", text)`: split at whitespace runs whose
preceding character is a sentence terminator. -/
def sentSplitAux : Nat → List Char → List Char → List (List Char)
  | 0, accRev, s => [accRev.reverse ++ s]
  | fuel + 1, accRev, s =>
    match s with
    | [] => [accRev.reverse]
    | c :: cs =>
      if isSpaceC c && (match accRev.head? with | some p => isTermC p | none => false) then
        accRev.reverse :: sentSplitAux fuel [] ((c :: cs).dropWhile isSpaceC)
      else sentSplitAux fuel (c :: accRev) cs

/-- Sentence split of `_handle_advanced_delete`. -/
def sentSplit (s : List Char) : List (List Char) :=
  sentSplitAux s.length [] s

/-- Python `str.split(sep)` for a non-empty separator (leftmost,
non-overlapping). -/
def splitOnSepAux (sep : List Char) : Nat → List Char → List Char → List (List Char)
  | 0, accRev, s => [accRev.reverse ++ s]
  | fuel + 1, accRev, s =>
    match s with
    | [] => [accRev.reverse]
    | c :: cs =>
      if startsWith sep (c :: cs) then
        accRev.reverse :: splitOnSepAux sep fuel [] ((c :: cs).drop sep.length)
      else splitOnSepAux sep fuel (c :: accRev) cs

/-- Split on a literal separator. -/
def splitOnSep (sep s : List Char) : List (List Char) :=
  splitOnSepAux sep s.length [] s

/-- Python `str.capitalize`: first character upper-cased, the rest
lower-cased. -/
def pyCapitalize : List Char → List Char
  | [] => []
  | c :: cs => pyUpperC c :: cs.map pyLowerC

/-- The snippets / personal-dictionary environment plus configuration. -/
structure Env where
  cfg : Config
  personalData : List (List Char × List Char)
  snippets : List (List Char × List Char)

/-- The default environment: default configuration, the personal
dictionary and snippets files absent (so only `_DEFAULT_DICTIONARY`
applies), matching a fresh installation. -/
def defaultEnv : Env :=
  { cfg := defaultConfig, personalData := [], snippets := [] }

/-- The result of one heuristic update: the mutated state, the returned
output, the action tag and the (possibly written) adaptive store. -/
structure HeurResult where
  state : TranscriptState
  new_output : List Char
  action : String
  store : AdaptiveStore
deriving DecidableEq, Repr

/-- `_handle_replace_pattern` (the adaptive store stands in for the
JSON file that `_learn_adaptive_replacement` writes). -/
def handle_replace_pattern (cfg : Config) (store : AdaptiveStore)
    (personalData : List (List Char × List Char)) (st : TranscriptState)
    (target replacement : List Char) (appId : Option (List Char)) (conf : Option ℚ) :
    HeurResult :=
  let targetCleaned := normalize_spaces target
  let learnedReplacement :=
    normalize_spaces (apply_personal_dictionary cfg store personalData appId replacement)
  let replacementCleaned :=
    normalize_spaces (cleanup_disfluencies cfg conf learnedReplacement)
  if targetCleaned.isEmpty || replacementCleaned.isEmpty || st.output_text.isEmpty then
    ⟨st, st.output_text, "ignore", store⟩
  else
    let newOutput :=
      replace_last_case_insensitive st.output_text targetCleaned replacementCleaned
    if newOutput ≠ st.output_text then
      let st' : TranscriptState :=
        ⟨if newOutput.isEmpty then [] else [newOutput], newOutput⟩
      let store' := learn_adaptive_replacement cfg store targetCleaned learnedReplacement appId
      ⟨st', newOutput, "undo_append", store'⟩
    else ⟨st, st.output_text, "ignore", store⟩

/-- `_handle_advanced_delete`. -/
def handle_advanced_delete (st : TranscriptState) (command : List Char) :
    TranscriptState × List Char × String :=
  let cc := lowerS (normalize_spaces command)
  if containsSub (lc "undo last sentence") cc || containsSub (lc "delete last sentence") cc then
    if st.output_text.isEmpty then (st, st.output_text, "ignore")
    else
      let sentences := (sentSplit (strip st.output_text)).filter (fun s => !s.isEmpty)
      if !sentences.isEmpty then
        let newText := strip (joinSp sentences.dropLast)
        if !newText.isEmpty then (⟨[newText], newText⟩, newText, "undo")
        else (⟨[], []⟩, [], "clear")
      else (st, st.output_text, "ignore")
  else if containsSub (lc "undo last paragraph") cc || containsSub (lc "remove last paragraph") cc then
    if st.output_text.isEmpty then (st, st.output_text, "ignore")
    else
      let paragraphs := splitOnSep (lc "\n\n") st.output_text
      if paragraphs.length > 1 then
        let newText := strip (List.intercalate (lc "\n\n") paragraphs.dropLast)
        if !newText.isEmpty then (⟨[newText], newText⟩, newText, "undo")
        else (⟨[], []⟩, [], "clear")
      else
        if !st.segments.isEmpty then
          let segs := st.segments.dropLast
          let out := join_segments segs
          (⟨segs, out⟩, out, "undo")
        else (st, st.output_text, "ignore")
  else (st, st.output_text, "ignore")

/-- `_handle_formatting_commands`. -/
def handle_formatting_commands (st : TranscriptState) (command : List Char) :
    TranscriptState × List Char × String :=
  let cc := lowerS (normalize_spaces command)
  if st.output_text.isEmpty then (st, st.output_text, "ignore")
  else
    let reformatLast := fun (f : List Char → List Char) =>
      if !st.segments.isEmpty then
        let segs := st.segments.dropLast ++ [f ((st.segments.getLast?).getD [])]
        let out := join_segments segs
        some ((⟨segs, out⟩ : TranscriptState), out, ("append" : String))
      else none
    let pick :=
      if containsSub (lc "capitalize that") cc || containsSub (lc "capitalize last") cc then
        reformatLast pyCapitalize
      else if containsSub (lc "make it a heading") cc || containsSub (lc "heading format") cc then
        reformatLast (fun seg => lc "# " ++ seg)
      else if containsSub (lc "make it bold") cc || containsSub (lc "bold format") cc then
        reformatLast (fun seg => lc "**" ++ seg ++ lc "**")
      else if containsSub (lc "make it italic") cc || containsSub (lc "italic format") cc then
        reformatLast (fun seg => lc "*" ++ seg ++ lc "*")
      else none
    match pick with
    | some r => r
    | none => (st, st.output_text, "ignore")

/-- `\s+after\s+(.+)` at one position (the split point of the lazy
group). -/
def insHere (s : List Char) : Option (List Char) :=
  let (sp, r2) := spanP isSpaceC s
  if sp.isEmpty then none
  else
    match matchCI (lc "after") r2 with
    | some r3 =>
      let (sp2, r4) := spanP isSpaceC r3
      if sp2.isEmpty then none
      else if r4.isEmpty then none else some r4
    | none => none

/-- The lazy `(.*?)\s+after\s+(.+)` scan of `_handle_advanced_replace`
starting right after `insert\s+` (shortest group first). -/
def insLazy : List Char → List Char → Option (List Char × List Char)
  | _, [] => none
  | accRev, c :: cs =>
    match insHere (c :: cs) with
    | some r4 => some (accRev.reverse, r4)
    | none => insLazy (c :: accRev) cs

/-- `insert\s+(.*?)\s+after\s+(.+)` at one position. -/
def insertAfterAt (s : List Char) : Option (List Char × List Char) :=
  match matchCI (lc "insert") s with
  | some r0 =>
    let (sp, r1) := spanP isSpaceC r0
    if sp.isEmpty then none else insLazy [] r1
  | none => none

/-- `re.search` scan for the insert-after pattern (the literal `insert`
has no word boundary, so it may match inside a longer word). -/
def insertAfterScan : Nat → List Char → Option (List Char × List Char)
  | 0, _ => none
  | fuel + 1, s =>
    match insertAfterAt s with
    | some p => some p
    | none =>
      match s with
      | [] => none
      | _ :: cs => insertAfterScan fuel cs

/-- `_handle_advanced_replace`. -/
def handle_advanced_replace (st : TranscriptState) (command : List Char) :
    TranscriptState × List Char × String :=
  let cc := normalize_spaces command
  match insertAfterScan (cc.length + 1) cc with
  | some (g1, g2) =>
    let textToInsert := normalize_spaces g1
    let targetPhrase := normalize_spaces g2
    if !textToInsert.isEmpty && !targetPhrase.isEmpty && !st.output_text.isEmpty then
      let newOutput :=
        subFirstCI targetPhrase (targetPhrase ++ lc " " ++ textToInsert) st.output_text
      if newOutput ≠ st.output_text then
        (⟨if newOutput.isEmpty then [] else [newOutput], newOutput⟩, newOutput, "append")
      else (st, st.output_text, "ignore")
    else (st, st.output_text, "ignore")
  | none => (st, st.output_text, "ignore")

/-- The command cascade of `apply_heuristic` after the setting and
snippet checks (states returned by ignoring handlers are threaded, as
the source shares one mutable state object). -/
def applyHeuristicRest (env : Env) (store : AdaptiveStore) (st : TranscriptState)
    (raw : List Char) (appId : Option (List Char)) (conf : Option ℚ) : HeurResult :=
  let ct := strip_command_preface raw
  if clear_match ct || clear_simple_match ct then ⟨⟨[], []⟩, [], "clear", store⟩
  else
    match replace_match ct with
    | some (tgtRaw, replRaw) =>
      handle_replace_pattern env.cfg store env.personalData st
        (normalize_spaces tgtRaw) (normalize_spaces replRaw) appId conf
    | none =>
      if ignore_trailing_match ct then ⟨st, st.output_text, "ignore", store⟩
      else if ignore_match ct then ⟨st, st.output_text, "ignore", store⟩
      else
        let ad := handle_advanced_delete st ct
        if ad.2.2 ≠ "ignore" then ⟨ad.1, ad.2.1, ad.2.2, store⟩
        else
          let fm := handle_formatting_commands ad.1 ct
          if fm.2.2 ≠ "ignore" then ⟨fm.1, fm.2.1, fm.2.2, store⟩
          else
            let ar := handle_advanced_replace fm.1 ct
            if ar.2.2 ≠ "ignore" then ⟨ar.1, ar.2.1, ar.2.2, store⟩
            else
              let st2 := ar.1
              match undo_match ct with
              | some rest =>
                let segs1 := st2.segments.dropLast
                let remainder :=
                  clean_remainder env.cfg store env.personalData appId conf rest
                if !remainder.isEmpty then
                  let segs2 := segs1 ++ [remainder]
                  let out := join_segments segs2
                  ⟨⟨segs2, out⟩, out, "undo_append", store⟩
                else
                  let out := join_segments segs1
                  ⟨⟨segs1, out⟩, out, "undo", store⟩
              | none =>
                let corrected :=
                  apply_personal_dictionary env.cfg store env.personalData appId
                    (apply_inline_corrections raw)
                let segment := normalize_segment env.cfg conf corrected
                if segment.isEmpty then ⟨st2, st2.output_text, "ignore", store⟩
                else
                  let segment2 := dedupe_overlap st2.output_text segment
                  if segment2.isEmpty then ⟨st2, st2.output_text, "ignore", store⟩
                  else
                    let segs := st2.segments ++ [segment2]
                    let out := join_segments segs
                    ⟨⟨segs, out⟩, out, "append", store⟩

/-- `apply_heuristic`.  Setting commands update the per-app profile (an
effect outside the transcript state) and return `ignore`; an empty
snippet value falls through to the command cascade exactly as the
Python truthiness test `if snippet:` does. -/
def apply_heuristic (env : Env) (store : AdaptiveStore) (st : TranscriptState)
    (utterance : List Char) (appId : Option (List Char)) (conf : Option ℚ) :
    HeurResult :=
  let raw := normalize_spaces utterance
  if raw.isEmpty then ⟨st, st.output_text, "ignore", store⟩
  else if (detect_setting_command raw).isSome then ⟨st, st.output_text, "ignore", store⟩
  else
    match resolve_snippet env.snippets raw with
    | some snip =>
      if !snip.isEmpty then
        let sc := normalize_spaces snip
        if !sc.isEmpty then
          let segs := st.segments ++ [sc]
          let out := join_segments segs
          ⟨⟨segs, out⟩, out, "append", store⟩
        else ⟨st, st.output_text, "ignore", store⟩
      else applyHeuristicRest env store st raw appId conf
    | none => applyHeuristicRest env store st raw appId conf

/-- The data-model invariant of `TranscriptState`. -/
def InvT (st : TranscriptState) : Prop :=
  st.output_text = join_segments st.segments

/-- Is this optional character absent or a non-space? -/
def notSpaceO : Option Char → Bool
  | some c => !isSpaceC c
  | none => true

/-- A whitespace character must be a plain space with no whitespace
right after it. -/
def spaceOkC (c : Char) (next : Option Char) : Bool :=
  !isSpaceC c || ((c == ' ') && notSpaceO next)

/-- Every whitespace character is a plain space and no two whitespace
characters are adjacent. -/
def singleSpaced : List Char → Bool
  | [] => true
  | c :: cs => spaceOkC c cs.head? && singleSpaced cs

/-- Stripped and internally single-spaced. -/
def wellSpaced (s : List Char) : Bool :=
  singleSpaced s && notSpaceO s.head? && notSpaceO s.getLast?

/-- Checker mirroring `capSentencesAux`: no character that the
capitalization pass would change. -/
def capOKAux : Bool → List Char → Bool
  | _, [] => true
  | capNext, c :: cs =>
    let doCap := capNext && isAlphaC c
    (!doCap || (pyUpperC c == c)) &&
      capOKAux (if isTermC c then true else if doCap then false else capNext) cs

/-- The capitalization pass leaves the string unchanged. -/
def capOK (s : List Char) : Bool := capOKAux true s

/-- A segment on which every pass of `normalize_segment` is the
identity: well-spaced, no leading content filler, no match of any
cleanup pattern (the aggressive ones only when the effective level is
aggressive), already capitalized, terminal punctuation present. -/
def CleanSeg (cfg : Config) (conf : Option ℚ) (s : List Char) : Bool :=
  wellSpaced s &&
  (contentFillerUnit s).isNone &&
  noMatch (altWordM fillerPhraseAlts (lc " ")) none s &&
  noMatch fillerWordM none s &&
  (if effective_cleanup_level cfg conf = "aggressive" then
    noMatch (altWordM aggressiveAlts (lc " ")) none s && noMatch dedupePhraseM none s
   else true) &&
  noMatch repeatedWordM none s &&
  noMatch repeatedPunctM none s &&
  noMatch spaceBeforePunctM none s &&
  noMatch punctNoSpaceM none s &&
  capOK s &&
  (s.isEmpty || isTermO s.getLast?)

theorem subAllF_of_noMatch (m : Matcher) :
    ∀ (fuel : Nat) (prev : Option Char) (s : List Char),
      s.length ≤ fuel → noMatch m prev s = true → subAllF m fuel prev s = s := by
  intro fuel
  induction fuel with
  | zero =>
    intro prev s hs _
    cases s with
    | nil => rfl
    | cons c cs => simp at hs
  | succ n ih =>
    intro prev s hs hn
    cases s with
    | nil => rfl
    | cons c cs =>
      simp only [noMatch, Bool.and_eq_true, Option.isNone_iff_eq_none] at hn
      simp only [subAllF, hn.1]
      have : cs.length ≤ n := by simpa using Nat.le_of_succ_le_succ hs
      rw [ih (some c) cs this hn.2]

theorem subAll_of_noMatch (m : Matcher) (s : List Char)
    (h : noMatch m none s = true) : subAll m s = s :=
  subAllF_of_noMatch m s.length none s (Nat.le_refl _) h

theorem dropWhile_length_le (p : Char → Bool) : ∀ (l : List Char),
    (l.dropWhile p).length ≤ l.length := by
  intro l
  induction l with
  | nil => simp
  | cons c cs ih =>
    simp only [List.dropWhile_cons]
    split
    · exact Nat.le_trans ih (Nat.le_succ _)
    · simp

theorem dropWhile_length_eq {p : Char → Bool} : ∀ {l : List Char},
    (l.dropWhile p).length = l.length → l.dropWhile p = l := by
  intro l h
  cases l with
  | nil => rfl
  | cons c cs =>
    by_cases hp : p c = true
    · exfalso
      rw [List.dropWhile_cons, if_pos hp] at h
      have := dropWhile_length_le p cs
      simp only [List.length_cons] at h
      omega
    · rw [List.dropWhile_cons, if_neg hp]

theorem dropWhile_eq_self_head {p : Char → Bool} {l : List Char} {c : Char}
    (h : l.dropWhile p = l) (hc : l.head? = some c) : p c = false := by
  cases l with
  | nil => simp at hc
  | cons a cs =>
    have hac : a = c := by simpa using hc
    rw [← hac]
    by_cases hp : p a = true
    · exfalso
      rw [List.dropWhile_cons, if_pos hp] at h
      have h1 := dropWhile_length_le p cs
      have h2 := congrArg List.length h
      simp only [List.length_cons] at h2
      omega
    · simpa using hp

theorem dropWhile_head_not {p : Char → Bool} : ∀ {l : List Char} {c : Char},
    (l.dropWhile p).head? = some c → p c = false := by
  intro l
  induction l with
  | nil => intro c hc; simp at hc
  | cons a cs ih =>
    intro c hc
    by_cases hp : p a = true
    · rw [List.dropWhile_cons, if_pos hp] at hc
      exact ih hc
    · rw [List.dropWhile_cons, if_neg hp] at hc
      obtain rfl : a = c := by simpa using hc
      simpa using hp

theorem dropWhile_getLast? {p : Char → Bool} {l : List Char}
    (h : l.dropWhile p ≠ []) : (l.dropWhile p).getLast? = l.getLast? := by
  conv_rhs => rw [← List.takeWhile_append_dropWhile p l]
  rw [List.getLast?_append_of_ne_nil _ h]

theorem strip_head_no_space {s : List Char} {c : Char}
    (h : (strip s).head? = some c) : isSpaceC c = false := by
  unfold strip at h
  rw [List.head?_reverse] at h
  by_cases hB : (s.dropWhile (fun c => isSpaceC c)).reverse.dropWhile (fun c => isSpaceC c) = []
  · rw [hB] at h; simp at h
  · rw [dropWhile_getLast? hB, List.getLast?_reverse] at h
    exact dropWhile_head_not h

theorem strip_last_no_space {s : List Char} {c : Char}
    (h : (strip s).getLast? = some c) : isSpaceC c = false := by
  unfold strip at h
  rw [List.getLast?_reverse] at h
  exact dropWhile_head_not h

theorem strip_eq_self_of (s : List Char)
    (h1 : ∀ c, s.head? = some c → isSpaceC c = false)
    (h2 : ∀ c, s.getLast? = some c → isSpaceC c = false) : strip s = s := by
  unfold strip
  have e1 : s.dropWhile (fun c => isSpaceC c) = s := by
    cases s with
    | nil => rfl
    | cons a cs =>
      have ha := h1 a rfl
      rw [List.dropWhile_cons, if_neg (by simp [ha])]
  rw [e1]
  have e2 : s.reverse.dropWhile (fun c => isSpaceC c) = s.reverse := by
    cases hr : s.reverse with
    | nil => rfl
    | cons a cs =>
      have ha : s.getLast? = some a := by
        rw [← List.head?_reverse, hr]; rfl
      have := h2 a ha
      rw [List.dropWhile_cons, if_neg (by simp [this])]
  rw [e2, List.reverse_reverse]

theorem strip_strip (s : List Char) : strip (strip s) = strip s :=
  strip_eq_self_of _ (fun _ h => strip_head_no_space h)
    (fun _ h => strip_last_no_space h)

theorem strip_dropWhile_eq {s : List Char} (h : strip s = s) :
    s.dropWhile (fun c => isSpaceC c) = s := by
  apply dropWhile_length_eq
  have h1 : (strip s).length ≤ (s.dropWhile (fun c => isSpaceC c)).length := by
    unfold strip
    rw [List.length_reverse]
    calc ((s.dropWhile (fun c => isSpaceC c)).reverse.dropWhile (fun c => isSpaceC c)).length
        ≤ (s.dropWhile (fun c => isSpaceC c)).reverse.length := dropWhile_length_le _ _
      _ = (s.dropWhile (fun c => isSpaceC c)).length := List.length_reverse _
  have h2 := dropWhile_length_le (fun c => isSpaceC c) s
  rw [h] at h1
  omega

theorem strip_head_not {s : List Char} {c : Char} (h : strip s = s)
    (hc : s.head? = some c) : isSpaceC c = false :=
  dropWhile_eq_self_head (strip_dropWhile_eq h) hc

theorem strip_last_not {s : List Char} {c : Char} (h : strip s = s)
    (hc : s.getLast? = some c) : isSpaceC c = false := by
  rw [← h] at hc
  exact strip_last_no_space hc

theorem strip_splice {pre mid post repl : List Char}
    (htext : strip (pre ++ (mid ++ post)) = pre ++ (mid ++ post))
    (_hmid : mid ≠ []) (hrepl : strip repl = repl) (hreplne : repl ≠ []) :
    strip (pre ++ (repl ++ post)) = pre ++ (repl ++ post) := by
  apply strip_eq_self_of
  · intro c hc
    cases pre with
    | nil =>
      simp only [List.nil_append] at hc htext
      rw [List.head?_append_of_ne_nil repl hreplne] at hc
      exact strip_head_not hrepl hc
    | cons a l =>
      have ha : ((a :: l) ++ (repl ++ post)).head? = some a := rfl
      rw [ha] at hc
      obtain rfl : a = c := by simpa using hc
      apply strip_head_not htext
      rfl
  · intro c hc
    cases hpost : post with
    | nil =>
      subst hpost
      have hre : (pre ++ (repl ++ ([] : List Char))).getLast? = repl.getLast? := by
        rw [List.append_nil, List.getLast?_append_of_ne_nil _ hreplne]
      rw [hre] at hc
      exact strip_last_not hrepl hc
    | cons b m =>
      subst hpost
      have hne : (b :: m : List Char) ≠ [] := by simp
      have h1 : (repl ++ b :: m).getLast? = some c := by
        rw [List.getLast?_append_of_ne_nil pre (by simp : repl ++ b :: m ≠ [])] at hc
        exact hc
      have h2 : (b :: m).getLast? = some c := by
        rw [List.getLast?_append_of_ne_nil repl hne] at h1
        exact h1
      apply strip_last_not htext
      rw [List.getLast?_append_of_ne_nil pre (by simp : mid ++ b :: m ≠ []),
        List.getLast?_append_of_ne_nil mid hne]
      exact h2

theorem matchCI_decomp : ∀ (p s r : List Char), matchCI p s = some r →
    ∃ m, m.length = p.length ∧ s = m ++ r := by
  intro p
  induction p with
  | nil =>
    intro s r h
    simp only [matchCI, Option.some.injEq] at h
    exact ⟨[], rfl, by simpa using h⟩
  | cons a ps ih =>
    intro s r h
    cases s with
    | nil => simp [matchCI] at h
    | cons c cs =>
      by_cases he : eqCI a c
      · simp only [matchCI, if_pos he] at h
        obtain ⟨m, hm, rfl⟩ := ih cs r h
        exact ⟨c :: m, by simp [hm], rfl⟩
      · simp [matchCI, he] at h

theorem wbMatchAt_matchCI {tgt : List Char} {prev : Option Char} {s r : List Char}
    (h : wbMatchAt tgt prev s = some r) : matchCI tgt s = some r := by
  unfold wbMatchAt at h
  split at h
  · rename_i c r0 heq1 heq2
    split at h
    · rw [heq2, Option.some.inj h]
    · exact absurd h (by simp)
  · exact absurd h (by simp)

theorem rlScan_spec (tgt : List Char) (htgt : tgt ≠ []) :
    ∀ (fuel : Nat) (prev : Option Char) (s accRev : List Char)
      (found : Option (List Char × List Char)),
      (∀ pre post, found = some (pre, post) →
        ∃ mid, mid ≠ [] ∧ pre ++ (mid ++ post) = accRev.reverse ++ s) →
      ∀ pre post, rlScan tgt fuel prev s accRev found = some (pre, post) →
        ∃ mid, mid ≠ [] ∧ pre ++ (mid ++ post) = accRev.reverse ++ s := by
  intro fuel
  induction fuel with
  | zero =>
    intro prev s accRev found hf pre post h
    exact hf pre post h
  | succ n ih =>
    intro prev s accRev found hf pre post h
    cases s with
    | nil => exact hf pre post h
    | cons c cs =>
      rw [rlScan] at h
      cases hm : wbMatchAt tgt prev (c :: cs) with
      | none =>
        rw [hm] at h
        have := ih (some c) cs (c :: accRev) found ?_ pre post h
        · obtain ⟨mid, hmid, he⟩ := this
          refine ⟨mid, hmid, ?_⟩
          rw [he]
          simp
        · intro pre' post' hfound
          obtain ⟨mid, hmid, he⟩ := hf pre' post' hfound
          refine ⟨mid, hmid, ?_⟩
          rw [he]
          simp
      | some r =>
        rw [hm] at h
        obtain ⟨m, hmlen, hdecomp⟩ := matchCI_decomp tgt (c :: cs) r (wbMatchAt_matchCI hm)
        have hmne : m ≠ [] := by
          intro hnil
          rw [hnil] at hmlen
          exact htgt (List.length_eq_zero.mp hmlen.symm)
        have htake : (c :: cs).take tgt.length = m := by
          rw [hdecomp, ← hmlen, List.take_left]
        have hdrop : ((c :: cs).take tgt.length).reverse.reverse ++ r = c :: cs := by
          rw [List.reverse_reverse, htake, ← hdecomp]
        have := ih ((c :: cs).take tgt.length).getLast? r
          (((c :: cs).take tgt.length).reverse ++ accRev) (some (accRev.reverse, r)) ?_ pre post h
        · obtain ⟨mid, hmid, he⟩ := this
          refine ⟨mid, hmid, ?_⟩
          rw [he]
          rw [List.reverse_append, List.reverse_reverse, htake, List.append_assoc, ← hdecomp]
        · intro pre' post' hfound
          obtain ⟨he1, he2⟩ : accRev.reverse = pre' ∧ r = post' := by
            constructor <;> [skip; skip] <;> cases hfound <;> rfl
          refine ⟨m, hmne, ?_⟩
          rw [← he1, ← he2]
          rw [List.reverse_append, List.reverse_reverse, htake, List.append_assoc, ← hdecomp]

theorem replace_last_spec (text tgt repl : List Char) :
    replace_last_case_insensitive text tgt repl = text ∨
    ∃ pre mid post, mid ≠ [] ∧ pre ++ (mid ++ post) = text ∧
      replace_last_case_insensitive text tgt repl = pre ++ (repl ++ post) := by
  unfold replace_last_case_insensitive
  by_cases hg : (text.isEmpty || tgt.isEmpty) = true
  · left; rw [if_pos hg]
  · rw [if_neg hg]
    have htgt : tgt ≠ [] := by
      intro hnil
      apply hg
      simp [hnil]
    cases hscan : rlScan tgt text.length none text [] none with
    | none => left; rfl
    | some pr =>
      obtain ⟨pre, post⟩ := pr
      right
      obtain ⟨mid, hmid, he⟩ :=
        rlScan_spec tgt htgt text.length none text [] none (by intro a b h; cases h) pre post hscan
      refine ⟨pre, mid, post, hmid, by simpa using he, ?_⟩
      show pre ++ repl ++ post = pre ++ (repl ++ post)
      rw [List.append_assoc]

theorem subFirstCI_spec (pat repl : List Char) (hp : pat ≠ []) : ∀ s : List Char,
    subFirstCI pat repl s = s ∨
    ∃ pre mid post, mid ≠ [] ∧ pre ++ (mid ++ post) = s ∧
      subFirstCI pat repl s = pre ++ (repl ++ post) := by
  intro s
  induction s with
  | nil => left; rfl
  | cons c cs ih =>
    rw [subFirstCI]
    cases hm : matchCI pat (c :: cs) with
    | some r =>
      right
      obtain ⟨m, hmlen, hdecomp⟩ := matchCI_decomp pat (c :: cs) r hm
      have hmne : m ≠ [] := by
        intro hnil
        rw [hnil] at hmlen
        exact hp (List.length_eq_zero.mp hmlen.symm)
      exact ⟨[], m, r, hmne, by simpa using hdecomp.symm, by simp⟩
    | none =>
      rcases ih with he | ⟨pre, mid, post, hmid, hdec, hres⟩
      · left; rw [he]
      · right
        exact ⟨c :: pre, mid, post, hmid, by rw [List.cons_append, hdec], by rw [hres]; rfl⟩

theorem join_singleton (s : List Char) : join_segments [s] = strip s := by
  unfold join_segments
  rw [List.filterMap_cons]
  by_cases h1 : s ≠ [] ∧ strip s ≠ []
  · rw [if_pos h1]
    show strip (List.intercalate (lc " ") (strip s :: List.filterMap _ [])) = strip s
    rw [List.filterMap_nil]
    have h2 : List.intercalate (lc " ") [strip s] = strip s := by
      simp [List.intercalate]
    rw [h2, strip_strip]
  · rw [if_neg h1]
    have hs : strip s = [] := by
      by_cases hs0 : s = []
      · rw [hs0]; rfl
      · by_cases hs1 : strip s = []
        · exact hs1
        · exact absurd ⟨hs0, hs1⟩ h1
    show strip (List.intercalate (lc " ") (List.filterMap _ [])) = strip s
    rw [List.filterMap_nil, hs]
    rfl

theorem join_segments_stripped (l : List (List Char)) :
    strip (join_segments l) = join_segments l :=
  strip_strip _

theorem inv_mk_join (segs : List (List Char)) :
    InvT ⟨segs, join_segments segs⟩ := rfl

theorem inv_single_of_stripped (s : List Char) (h : strip s = s) :
    InvT ⟨if s.isEmpty then [] else [s], s⟩ := by
  by_cases hs : s = []
  · subst hs; rfl
  · unfold InvT
    simp only [List.isEmpty_eq_true, hs, if_neg, if_false]
    rw [join_singleton, h]

theorem normalize_spaces_stripped (s : List Char) :
    strip (normalize_spaces s) = normalize_spaces s :=
  strip_strip _

theorem inv_single (s : List Char) (h : strip s = s) :
    InvT ⟨[s], s⟩ := by
  unfold InvT
  rw [join_singleton, h]

theorem strip_join_pair {a b : List Char} (ha : strip a = a) (hane : a ≠ [])
    (hb : strip b = b) (hbne : b ≠ []) :
    strip (a ++ lc " " ++ b) = a ++ lc " " ++ b := by
  apply strip_eq_self_of
  · intro c hc
    rw [List.append_assoc, List.head?_append_of_ne_nil a hane] at hc
    exact strip_head_not ha hc
  · intro c hc
    rw [List.getLast?_append_of_ne_nil _ hbne] at hc
    exact strip_last_not hb hc

theorem inv_handle_replace (cfg : Config) (store : AdaptiveStore)
    (pd : List (List Char × List Char)) (st : TranscriptState)
    (tgt repl : List Char) (appId : Option (List Char)) (conf : Option ℚ)
    (h : InvT st) :
    InvT (handle_replace_pattern cfg store pd st tgt repl appId conf).state := by
  have houtput : strip st.output_text = st.output_text := by
    rw [h]; exact join_segments_stripped _
  simp only [handle_replace_pattern]
  split
  · exact h
  · rename_i hguard
    split
    · rename_i hne
      apply inv_single_of_stripped
      rcases replace_last_spec st.output_text (normalize_spaces tgt)
          (normalize_spaces (cleanup_disfluencies cfg conf
            (normalize_spaces (apply_personal_dictionary cfg store pd appId repl)))) with
        heq | ⟨pre, mid, post, hmid, hdec, hres⟩
      · rw [heq]; exact houtput
      · rw [hres]
        apply @strip_splice pre mid post _
        · rw [hdec]; exact houtput
        · exact hmid
        · exact normalize_spaces_stripped _
        · intro hnil
          apply hguard
          simp [List.isEmpty_iff, hnil]
    · exact h

theorem inv_handle_advanced_delete (st : TranscriptState) (cmd : List Char)
    (h : InvT st) : InvT (handle_advanced_delete st cmd).1 := by
  simp only [handle_advanced_delete]
  split
  · split
    · exact h
    · split
      · split
        · exact inv_single _ (strip_strip _)
        · rfl
      · exact h
  · split
    · split
      · exact h
      · split
        · split
          · exact inv_single _ (strip_strip _)
          · rfl
        · split
          · exact inv_mk_join _
          · exact h
    · exact h

theorem inv_handle_formatting (st : TranscriptState) (cmd : List Char)
    (h : InvT st) : InvT (handle_formatting_commands st cmd).1 := by
  simp only [handle_formatting_commands]
  split
  · exact h
  · split
    · rename_i r heq
      repeat' split at heq
      all_goals
        first
          | (cases heq; exact inv_mk_join _)
          | simp at heq
    · exact h

theorem inv_handle_advanced_replace (st : TranscriptState) (cmd : List Char)
    (h : InvT st) : InvT (handle_advanced_replace st cmd).1 := by
  have houtput : strip st.output_text = st.output_text := by
    rw [h]; exact join_segments_stripped _
  simp only [handle_advanced_replace]
  split
  · rename_i g1 g2 heq
    split
    · rename_i hguard
      have hti : normalize_spaces g1 ≠ [] := by
        intro hnil
        rw [hnil] at hguard
        simp at hguard
      have htp : normalize_spaces g2 ≠ [] := by
        intro hnil
        rw [hnil] at hguard
        simp at hguard
      split
      · rename_i hne
        apply inv_single_of_stripped
        rcases subFirstCI_spec (normalize_spaces g2)
            (normalize_spaces g2 ++ lc " " ++ normalize_spaces g1) htp
            st.output_text with heq2 | ⟨pre, mid, post, hmid, hdec, hres⟩
        · rw [heq2]; exact houtput
        · rw [hres]
          apply @strip_splice pre mid post _
          · rw [hdec]; exact houtput
          · exact hmid
          · exact strip_join_pair (normalize_spaces_stripped _) htp
              (normalize_spaces_stripped _) hti
          · intro hnil
            apply htp
            have := congrArg List.length hnil
            simp at this
            exact this.1
      · exact h
    · exact h
  · exact h

theorem inv_applyHeuristicRest (env : Env) (store : AdaptiveStore)
    (st : TranscriptState) (raw : List Char) (appId : Option (List Char))
    (conf : Option ℚ) (h : InvT st) :
    InvT (applyHeuristicRest env store st raw appId conf).state := by
  simp only [applyHeuristicRest]
  split
  · rfl
  · split
    · exact inv_handle_replace _ _ _ _ _ _ _ _ h
    · split
      · exact h
      · split
        · exact h
        · split
          · exact inv_handle_advanced_delete _ _ h
          · split
            · exact inv_handle_formatting _ _ (inv_handle_advanced_delete _ _ h)
            · split
              · exact inv_handle_advanced_replace _ _
                  (inv_handle_formatting _ _ (inv_handle_advanced_delete _ _ h))
              · split
                · split
                  · exact inv_mk_join _
                  · exact inv_mk_join _
                · split
                  · exact inv_handle_advanced_replace _ _
                      (inv_handle_formatting _ _ (inv_handle_advanced_delete _ _ h))
                  · split
                    · exact inv_handle_advanced_replace _ _
                        (inv_handle_formatting _ _ (inv_handle_advanced_delete _ _ h))
                    · exact inv_mk_join _

theorem inv_apply_heuristic (env : Env) (store : AdaptiveStore)
    (st : TranscriptState) (u : List Char) (appId : Option (List Char))
    (conf : Option ℚ) (h : InvT st) :
    InvT (apply_heuristic env store st u appId conf).state := by
  simp only [apply_heuristic]
  split
  · exact h
  · split
    · exact h
    · split
      · split
        · split
          · exact inv_mk_join _
          · exact h
        · exact inv_applyHeuristicRest _ _ _ _ _ _ h
      · exact inv_applyHeuristicRest _ _ _ _ _ _ h

/-- Claim C1: for every `TranscriptState` satisfying
`output_text == join(segments, " ")` and every utterance (any
configuration, dictionaries, adaptive store, app id and confidence),
the state after `apply_heuristic` still satisfies
`output_text == join(segments, " ")`. -/
theorem c1_output_equals_join_invariant (env : Env) (store : AdaptiveStore)
    (st : TranscriptState) (u : List Char) (appId : Option (List Char))
    (conf : Option ℚ) (h : st.output_text = join_segments st.segments) :
    (apply_heuristic env store st u appId conf).state.output_text =
      join_segments (apply_heuristic env store st u appId conf).state.segments :=
  inv_apply_heuristic env store st u appId conf h

/-- Witness for C1 at a concrete state and utterance. -/
theorem c1_output_equals_join_invariant_witness :
    lc "Hello world." = join_segments [lc "Hello world."] ∧
    (apply_heuristic defaultEnv emptyStore ⟨[lc "Hello world."], lc "Hello world."⟩
        (lc "Old ending.") none none).state.output_text =
      join_segments (apply_heuristic defaultEnv emptyStore
        ⟨[lc "Hello world."], lc "Hello world."⟩
        (lc "Old ending.") none none).state.segments :=
  ⟨by decide,
   c1_output_equals_join_invariant defaultEnv emptyStore
     ⟨[lc "Hello world."], lc "Hello world."⟩ (lc "Old ending.") none none (by decide)⟩

/-- Claim C5: starting from an empty state, the utterances
`"Hello world."`, `"Old ending."`,
`"oh no delete that and write: Hello again."` produce the final output
`"Hello world. Hello again."` with last action `undo_append`. -/
theorem c5_delete_and_write_scenario :
    (apply_heuristic defaultEnv
      (apply_heuristic defaultEnv
        (apply_heuristic defaultEnv emptyStore ⟨[], []⟩ (lc "Hello world.") none none).store
        (apply_heuristic defaultEnv emptyStore ⟨[], []⟩ (lc "Hello world.") none none).state
        (lc "Old ending.") none none).store
      (apply_heuristic defaultEnv
        (apply_heuristic defaultEnv emptyStore ⟨[], []⟩ (lc "Hello world.") none none).store
        (apply_heuristic defaultEnv emptyStore ⟨[], []⟩ (lc "Hello world.") none none).state
        (lc "Old ending.") none none).state
      (lc "oh no delete that and write: Hello again.") none none).new_output =
        lc "Hello world. Hello again." ∧
    (apply_heuristic defaultEnv
      (apply_heuristic defaultEnv
        (apply_heuristic defaultEnv emptyStore ⟨[], []⟩ (lc "Hello world.") none none).store
        (apply_heuristic defaultEnv emptyStore ⟨[], []⟩ (lc "Hello world.") none none).state
        (lc "Old ending.") none none).store
      (apply_heuristic defaultEnv
        (apply_heuristic defaultEnv emptyStore ⟨[], []⟩ (lc "Hello world.") none none).store
        (apply_heuristic defaultEnv emptyStore ⟨[], []⟩ (lc "Hello world.") none none).state
        (lc "Old ending.") none none).state
      (lc "oh no delete that and write: Hello again.") none none).action = "undo_append" := by
  decide

/-- Claim C7 (code bug): the snippet trigger pattern is written as a raw
string containing `\\s+`, i.e. a literal backslash followed by letters
`s`, so `"snippet greeting"` never resolves even when the snippets map
contains `greeting`; the utterance is instead normalized and appended as
plain content (`"Snippet greeting."`), while an utterance containing the
literal characters `\s` does resolve. -/
theorem c7_snippet_trigger_broken :
    resolve_snippet [(lc "greeting", lc "Hello there!")] (lc "snippet greeting") = none ∧
    (apply_heuristic
        { cfg := defaultConfig, personalData := [],
          snippets := [(lc "greeting", lc "Hello there!")] }
        emptyStore ⟨[], []⟩ (lc "snippet greeting") none none).new_output =
      lc "Snippet greeting." ∧
    (apply_heuristic
        { cfg := defaultConfig, personalData := [],
          snippets := [(lc "greeting", lc "Hello there!")] }
        emptyStore ⟨[], []⟩ (lc "snippet greeting") none none).action = "append" ∧
    resolve_snippet [(lc "greeting", lc "Hello there!")] (lc "snippet\\s greeting") =
      some (lc "Hello there!") ∧
    (apply_heuristic
        { cfg := defaultConfig, personalData := [],
          snippets := [(lc "greeting", lc "Hello there!")] }
        emptyStore ⟨[], []⟩ (lc "snippet\\s greeting") none none).new_output =
      lc "Hello there!" := by
  decide

/-- Claim C3: any utterance that reaches the clear branch of the
classifier (normalized non-empty, not a settings command, not a snippet,
matching one of the clear patterns after preface stripping) clears any
prior state: empty output, empty segment list, action `clear`. -/
theorem c3_clear_always_resets (env : Env) (store : AdaptiveStore)
    (st : TranscriptState) (u : List Char) (appId : Option (List Char))
    (conf : Option ℚ)
    (hraw : normalize_spaces u ≠ [])
    (hset : detect_setting_command (normalize_spaces u) = none)
    (hsnip : resolve_snippet env.snippets (normalize_spaces u) = none)
    (hclear : clear_match (strip_command_preface (normalize_spaces u)) = true ∨
      clear_simple_match (strip_command_preface (normalize_spaces u)) = true) :
    apply_heuristic env store st u appId conf = ⟨⟨[], []⟩, [], "clear", store⟩ := by
  have hne : (normalize_spaces u).isEmpty = false := by
    simp [List.isEmpty_iff, hraw]
  simp only [apply_heuristic, hne, hset, hsnip]
  simp only [applyHeuristicRest]
  rcases hclear with hc | hc <;> simp [hc]

/-- Witness for C3 at a concrete prior state. -/
theorem c3_clear_always_resets_witness :
    normalize_spaces (lc "clear everything") ≠ [] ∧
    apply_heuristic defaultEnv emptyStore ⟨[lc "One.", lc "Two."], lc "One. Two."⟩
      (lc "clear everything") none none = ⟨⟨[], []⟩, [], "clear", emptyStore⟩ :=
  ⟨by decide,
   c3_clear_always_resets defaultEnv emptyStore ⟨[lc "One.", lc "Two."], lc "One. Two."⟩
     (lc "clear everything") none none (by decide) (by decide) (by decide)
     (Or.inl (by decide))⟩

/-- Claim C2 counterexample: `"undo"` on the empty state returns the
action `"undo"`, not `"ignore"` as the specification states (the output
and segment list are unchanged either way). -/
theorem c2_undo_empty_counterexample :
    (apply_heuristic defaultEnv emptyStore ⟨[], []⟩ (lc "undo") none none).action = "undo" ∧
    (apply_heuristic defaultEnv emptyStore ⟨[], []⟩ (lc "undo") none none).action ≠ "ignore" ∧
    (apply_heuristic defaultEnv emptyStore ⟨[], []⟩ (lc "undo") none none).new_output = [] ∧
    (apply_heuristic defaultEnv emptyStore ⟨[], []⟩ (lc "undo") none none).state.segments = [] := by
  decide

theorem handle_advanced_delete_empty (cmd : List Char) :
    handle_advanced_delete ⟨[], []⟩ cmd = (⟨[], []⟩, [], "ignore") := by
  simp only [handle_advanced_delete]
  split
  · rfl
  · split
    · rfl
    · rfl

theorem handle_formatting_empty (cmd : List Char) :
    handle_formatting_commands ⟨[], []⟩ cmd = (⟨[], []⟩, [], "ignore") := rfl

theorem handle_advanced_replace_empty (cmd : List Char) :
    handle_advanced_replace ⟨[], []⟩ cmd = (⟨[], []⟩, [], "ignore") := by
  simp only [handle_advanced_replace]
  split
  · simp
  · rfl

/-- Claim C2 amended: an undo/delete/scratch command with an empty
cleaned remainder, applied to the state with zero segments, returns
action `"undo"` (not `"ignore"`), leaves `output_text` unchanged
(empty), and keeps the segment count at zero — it never becomes
negative. -/
theorem c2_undo_empty_amended (env : Env) (store : AdaptiveStore)
    (appId : Option (List Char)) (conf : Option ℚ) (u rest : List Char)
    (hraw : normalize_spaces u ≠ [])
    (hset : detect_setting_command (normalize_spaces u) = none)
    (hsnip : resolve_snippet env.snippets (normalize_spaces u) = none)
    (hclear : clear_match (strip_command_preface (normalize_spaces u)) = false)
    (hclear2 : clear_simple_match (strip_command_preface (normalize_spaces u)) = false)
    (hrepl : replace_match (strip_command_preface (normalize_spaces u)) = none)
    (htrail : ignore_trailing_match (strip_command_preface (normalize_spaces u)) = false)
    (hign : ignore_match (strip_command_preface (normalize_spaces u)) = false)
    (hundo : undo_match (strip_command_preface (normalize_spaces u)) = some rest)
    (hrem : clean_remainder env.cfg store env.personalData appId conf rest = []) :
    apply_heuristic env store ⟨[], []⟩ u appId conf = ⟨⟨[], []⟩, [], "undo", store⟩ := by
  have hne : (normalize_spaces u).isEmpty = false := by
    simp [List.isEmpty_iff, hraw]
  simp only [apply_heuristic, hne, hset, hsnip]
  simp only [applyHeuristicRest, hclear, hclear2, hrepl, htrail, hign,
    handle_advanced_delete_empty, handle_formatting_empty, handle_advanced_replace_empty,
    hundo, hrem]
  simp
  rfl

/-- Witness for the amended C2 at the concrete utterance `"undo"`. -/
theorem c2_undo_empty_amended_witness :
    normalize_spaces (lc "undo") ≠ [] ∧
    apply_heuristic defaultEnv emptyStore ⟨[], []⟩ (lc "undo") none none =
      ⟨⟨[], []⟩, [], "undo", emptyStore⟩ :=
  ⟨by decide,
   c2_undo_empty_amended defaultEnv emptyStore none none (lc "undo") []
     (by decide) (by decide) (by decide) (by decide) (by decide) (by decide)
     (by decide) (by decide) (by decide) (by decide)⟩

/-- Claim C4 counterexample: an in-place `replace(beta, delta)` on a
two-segment state yields action `undo_append` but collapses the segment
list to one rewritten segment; the claimed pop-and-push effect
(`["Alpha beta.", "delta"]`) does not hold, and neither does its joined
output. -/
theorem c4_replace_collapses_counterexample :
    (apply_heuristic defaultEnv emptyStore
        ⟨[lc "Alpha beta.", lc "Gamma."], lc "Alpha beta. Gamma."⟩
        (lc "replace beta with delta") none none).action = "undo_append" ∧
    (apply_heuristic defaultEnv emptyStore
        ⟨[lc "Alpha beta.", lc "Gamma."], lc "Alpha beta. Gamma."⟩
        (lc "replace beta with delta") none none).state.segments =
      [lc "Alpha delta. Gamma."] ∧
    (apply_heuristic defaultEnv emptyStore
        ⟨[lc "Alpha beta.", lc "Gamma."], lc "Alpha beta. Gamma."⟩
        (lc "replace beta with delta") none none).state.segments ≠
      [lc "Alpha beta.", lc "delta"] ∧
    (apply_heuristic defaultEnv emptyStore
        ⟨[lc "Alpha beta.", lc "Gamma."], lc "Alpha beta. Gamma."⟩
        (lc "replace beta with delta") none none).new_output ≠
      join_segments [lc "Alpha beta.", lc "delta"] := by
  decide

/-- Claim C9 counterexample: the normalizer is not idempotent.  One pass
turns `"Hello:"` into `"Hello:."` (terminal period appended after the
colon); a second pass re-spaces the adjacent punctuation into
`"Hello: ."`. -/
theorem c9_normalize_not_idempotent :
    normalize_segment defaultConfig none (lc "Hello:") = lc "Hello:." ∧
    normalize_segment defaultConfig none
        (normalize_segment defaultConfig none (lc "Hello:")) = lc "Hello: ." ∧
    normalize_segment defaultConfig none
        (normalize_segment defaultConfig none (lc "Hello:")) ≠
      normalize_segment defaultConfig none (lc "Hello:") := by
  decide

/-- Claim C6 counterexample: `"insert more after Hello"` is classified
and executed as an advanced-insert command (it edits the transcript in
place), yet `needs_intent_handling` returns `false` for it. -/
theorem c6_insert_after_counterexample :
    needs_intent_handling (lc "insert more after Hello") = false ∧
    (handle_advanced_replace ⟨[lc "Hello there."], lc "Hello there."⟩
        (lc "insert more after Hello")).2.2 = "append" ∧
    (apply_heuristic defaultEnv emptyStore ⟨[lc "Hello there."], lc "Hello there."⟩
        (lc "insert more after Hello") none none).action = "append" ∧
    (apply_heuristic defaultEnv emptyStore ⟨[lc "Hello there."], lc "Hello there."⟩
        (lc "insert more after Hello") none none).new_output = lc "Hello more there." := by
  decide

/-- Claim C4 amended: when `undo_append` comes from an undo command with
a non-empty cleaned remainder, the effect on segments is exactly to pop
the last segment and push the remainder, leaving earlier segments
unchanged, with `output_text = join(segments)`; when it comes from an
in-place `replace`, the segment list instead collapses to the single
rewritten output. -/
theorem c4_undo_append_amended :
    (∀ (env : Env) (store : AdaptiveStore) (st : TranscriptState)
        (appId : Option (List Char)) (conf : Option ℚ) (u rest : List Char),
      normalize_spaces u ≠ [] →
      detect_setting_command (normalize_spaces u) = none →
      resolve_snippet env.snippets (normalize_spaces u) = none →
      clear_match (strip_command_preface (normalize_spaces u)) = false →
      clear_simple_match (strip_command_preface (normalize_spaces u)) = false →
      replace_match (strip_command_preface (normalize_spaces u)) = none →
      ignore_trailing_match (strip_command_preface (normalize_spaces u)) = false →
      ignore_match (strip_command_preface (normalize_spaces u)) = false →
      handle_advanced_delete st (strip_command_preface (normalize_spaces u)) =
        (st, st.output_text, "ignore") →
      handle_formatting_commands st (strip_command_preface (normalize_spaces u)) =
        (st, st.output_text, "ignore") →
      handle_advanced_replace st (strip_command_preface (normalize_spaces u)) =
        (st, st.output_text, "ignore") →
      undo_match (strip_command_preface (normalize_spaces u)) = some rest →
      clean_remainder env.cfg store env.personalData appId conf rest ≠ [] →
      apply_heuristic env store st u appId conf =
        ⟨⟨st.segments.dropLast ++
            [clean_remainder env.cfg store env.personalData appId conf rest],
          join_segments (st.segments.dropLast ++
            [clean_remainder env.cfg store env.personalData appId conf rest])⟩,
         join_segments (st.segments.dropLast ++
           [clean_remainder env.cfg store env.personalData appId conf rest]),
         "undo_append", store⟩) ∧
    (∀ (cfg : Config) (store : AdaptiveStore) (pd : List (List Char × List Char))
        (st : TranscriptState) (tgt repl : List Char) (appId : Option (List Char))
        (conf : Option ℚ),
      (handle_replace_pattern cfg store pd st tgt repl appId conf).action = "undo_append" →
      (handle_replace_pattern cfg store pd st tgt repl appId conf).state.segments =
        [(handle_replace_pattern cfg store pd st tgt repl appId conf).new_output]) := by
  constructor
  · intro env store st appId conf u rest hraw hset hsnip hclear hclear2 hrepl htrail hign
      had hfm har hundo hrem
    have hne : (normalize_spaces u).isEmpty = false := by
      simp [List.isEmpty_iff, hraw]
    simp only [apply_heuristic, hne, hset, hsnip]
    simp only [applyHeuristicRest, hclear, hclear2, hrepl, htrail, hign, had, hfm, har,
      hundo]
    have hre : (clean_remainder env.cfg store env.personalData appId conf rest).isEmpty
        = false := by
      simp [List.isEmpty_iff, hrem]
    simp [hre]
  · intro cfg store pd st tgt repl appId conf hact
    simp only [handle_replace_pattern] at hact ⊢
    split
    · rename_i hg
      rw [if_pos hg] at hact
      simp at hact
    · rename_i hg
      rw [if_neg hg] at hact
      split
      · rename_i hne
        have hnn : replace_last_case_insensitive st.output_text (normalize_spaces tgt)
            (normalize_spaces (cleanup_disfluencies cfg conf
              (normalize_spaces (apply_personal_dictionary cfg store pd appId repl)))) ≠ [] := by
          rcases replace_last_spec st.output_text (normalize_spaces tgt)
              (normalize_spaces (cleanup_disfluencies cfg conf
                (normalize_spaces (apply_personal_dictionary cfg store pd appId repl))))
            with heq | ⟨pre, mid, post, hmid, hdec, hres⟩
          · exact absurd heq hne
          · rw [hres]
            intro hnil
            have hrc : normalize_spaces (cleanup_disfluencies cfg conf
                (normalize_spaces (apply_personal_dictionary cfg store pd appId repl))) = [] := by
              rcases List.append_eq_nil.mp hnil with ⟨_, h2⟩
              rcases List.append_eq_nil.mp h2 with ⟨h3, _⟩
              exact h3
            apply hg
            simp [hrc]
        simp [List.isEmpty_iff, hnn]
      · rename_i hne
        rw [if_neg hne] at hact
        simp at hact

/-- Witness for the amended C4 at the concrete undo-with-remainder
utterance of the specification scenario. -/
theorem c4_undo_append_amended_witness :
    normalize_spaces (lc "oh no delete that and write: Hello again.") ≠ [] ∧
    apply_heuristic defaultEnv emptyStore
        ⟨[lc "Hello world.", lc "Old ending."], lc "Hello world. Old ending."⟩
        (lc "oh no delete that and write: Hello again.") none none =
      ⟨⟨[lc "Hello world.", lc "Old ending."].dropLast ++ [lc "Hello again."],
        join_segments ([lc "Hello world.", lc "Old ending."].dropLast ++ [lc "Hello again."])⟩,
       join_segments ([lc "Hello world.", lc "Old ending."].dropLast ++ [lc "Hello again."]),
       "undo_append", emptyStore⟩ ∧
    (handle_replace_pattern defaultConfig emptyStore []
        ⟨[lc "Alpha beta.", lc "Gamma."], lc "Alpha beta. Gamma."⟩
        (lc "beta") (lc "delta") none none).state.segments =
      [(handle_replace_pattern defaultConfig emptyStore []
        ⟨[lc "Alpha beta.", lc "Gamma."], lc "Alpha beta. Gamma."⟩
        (lc "beta") (lc "delta") none none).new_output] := by
  refine ⟨by decide, ?_, ?_⟩
  · have h := c4_undo_append_amended.1 defaultEnv emptyStore
      ⟨[lc "Hello world.", lc "Old ending."], lc "Hello world. Old ending."⟩
      none none (lc "oh no delete that and write: Hello again.") (lc " and write: Hello again.")
      (by decide) (by decide) (by decide) (by decide) (by decide) (by decide)
      (by decide) (by decide) (by decide) (by decide) (by decide) (by decide) (by decide)
    rw [h]
    decide
  · exact c4_undo_append_amended.2 defaultConfig emptyStore []
      ⟨[lc "Alpha beta.", lc "Gamma."], lc "Alpha beta. Gamma."⟩
      (lc "beta") (lc "delta") none none (by decide)

/-- Claim C6 amended: `needs_intent_handling` returns true for every
utterance whose preface-stripped text fires one of the matchers it
consults (clear, ignore, trailing ignore, undo, replace,
rewrite/grammar transform, tone/language setting, or the anchored
advanced-delete and formatting command forms), and false for the plain
sentence `"I need a clear explanation"`; snippet triggers and
advanced-insert commands are not consulted, so they yield false. -/
theorem c6_needs_intent_amended :
    (∀ u : List Char,
      strip_command_preface (normalize_spaces u) ≠ [] →
      (clear_match (strip_command_preface (normalize_spaces u)) = true ∨
       clear_simple_match (strip_command_preface (normalize_spaces u)) = true ∨
       ignore_match (strip_command_preface (normalize_spaces u)) = true ∨
       ignore_trailing_match (strip_command_preface (normalize_spaces u)) = true ∨
       (undo_match (strip_command_preface (normalize_spaces u))).isSome = true ∨
       (replace_match (strip_command_preface (normalize_spaces u))).isSome = true ∨
       (detect_transform_command (strip_command_preface (normalize_spaces u))).isSome = true ∨
       (detect_setting_command (strip_command_preface (normalize_spaces u))).isSome = true ∨
       adv_delete_cmd_match (lowerS (strip_command_preface (normalize_spaces u))) = true ∨
       fmt_cmd_match (lowerS (strip_command_preface (normalize_spaces u))) = true) →
      needs_intent_handling u = true) ∧
    needs_intent_handling (lc "I need a clear explanation") = false := by
  constructor
  · intro u hct hdisj
    have hraw : normalize_spaces u ≠ [] := by
      intro h0
      apply hct
      rw [h0]
      decide
    have hne : (normalize_spaces u).isEmpty = false := by
      simp [List.isEmpty_iff, hraw]
    have hcte : (strip_command_preface (normalize_spaces u)).isEmpty = false := by
      simp [List.isEmpty_iff, hct]
    have hchain : ∀ b1 b2 b3 b4 b5 b6 b7 b8 : Bool,
        (b1 || b2 || b3 || b4 || b5 || b6 || b7 || b8) = true →
        (if b1 then true else if b2 then true else if b3 then true
         else if b4 then true else if b5 then true else if b6 then true
         else if b7 then true else if b8 then true else false) = true := by
      decide
    simp only [needs_intent_handling, hne, hcte]
    apply hchain
    rcases hdisj with h | h | h | h | h | h | h | h | h | h <;> simp [h]
  · decide

/-- Witness for the amended C6 at a concrete clear command. -/
theorem c6_needs_intent_amended_witness :
    strip_command_preface (normalize_spaces (lc "clear everything")) ≠ [] ∧
    needs_intent_handling (lc "clear everything") = true :=
  ⟨by decide,
   c6_needs_intent_amended.1 (lc "clear everything") (by decide) (Or.inl (by decide))⟩

theorem dedupe_overlap_full (prev seg : List Char) (k : Nat)
    (hprev : prev ≠ []) (hseg : seg ≠ [])
    (hk1 : 1 ≤ k) (hk3 : k ≤ 3)
    (hkle : k ≤ (splitWS prev).length)
    (htok : splitWS seg = (splitWS prev).drop ((splitWS prev).length - k)) :
    dedupe_overlap prev seg = [] := by
  have hlen : (splitWS seg).length = k := by
    rw [htok, List.length_drop]
    omega
  have hptne : (splitWS prev).isEmpty = false := by
    have : (splitWS prev).length ≠ 0 := by omega
    cases hp : splitWS prev
    · rw [hp] at this; simp at this
    · rfl
  have hstne : (splitWS seg).isEmpty = false := by
    have : (splitWS seg).length ≠ 0 := by omega
    cases hp : splitWS seg
    · rw [hp] at this; simp at this
    · rfl
  have hmc : min 3 (min (splitWS prev).length (splitWS seg).length) = k := by
    rw [hlen]
    omega
  simp only [dedupe_overlap]
  rw [if_neg (by simp [List.isEmpty_iff, hprev, hseg])]
  rw [if_neg (by simp [hptne, hstne])]
  rw [hmc]
  obtain ⟨j, rfl⟩ : ∃ j, k = j + 1 := ⟨k - 1, by omega⟩
  rw [List.range_succ_eq_map, List.findSome?_cons]
  have hcond : (splitWS prev).drop ((splitWS prev).length - (j + 1 - 0)) =
      (splitWS seg).take (j + 1 - 0) := by
    simp only [Nat.sub_zero]
    rw [← htok, ← hlen]
    exact (List.take_length _).symm
  rw [if_pos hcond]
  have hdrop : (splitWS seg).drop (j + 1 - 0) = [] := by
    simp only [Nat.sub_zero]
    rw [← hlen]
    exact List.drop_length _
  rw [hdrop]
  rfl

/-- Claim C10: when the output text is non-empty, the utterance passes
every command matcher unchanged as plain content, and the normalized
segment consists exactly of the last k tokens (1 ≤ k ≤ 3) of the
output text, the overlap dedupe removes the whole segment and
`apply_heuristic` returns action `"ignore"` with state, output text
and store untouched. -/
theorem c10_full_overlap_dedupe_ignored
    (env : Env) (store : AdaptiveStore) (st : TranscriptState)
    (appId : Option (List Char)) (conf : Option ℚ) (u seg : List Char) (k : Nat)
    (hraw : normalize_spaces u ≠ [])
    (hset : detect_setting_command (normalize_spaces u) = none)
    (hsnip : resolve_snippet env.snippets (normalize_spaces u) = none)
    (hclear : clear_match (strip_command_preface (normalize_spaces u)) = false)
    (hclear2 : clear_simple_match (strip_command_preface (normalize_spaces u)) = false)
    (hrepl : replace_match (strip_command_preface (normalize_spaces u)) = none)
    (htrail : ignore_trailing_match (strip_command_preface (normalize_spaces u)) = false)
    (hign : ignore_match (strip_command_preface (normalize_spaces u)) = false)
    (had : handle_advanced_delete st (strip_command_preface (normalize_spaces u)) =
      (st, st.output_text, "ignore"))
    (hfm : handle_formatting_commands st (strip_command_preface (normalize_spaces u)) =
      (st, st.output_text, "ignore"))
    (har : handle_advanced_replace st (strip_command_preface (normalize_spaces u)) =
      (st, st.output_text, "ignore"))
    (hundo : undo_match (strip_command_preface (normalize_spaces u)) = none)
    (hseg : normalize_segment env.cfg conf
        (apply_personal_dictionary env.cfg store env.personalData appId
          (apply_inline_corrections (normalize_spaces u))) = seg)
    (hsegne : seg ≠ [])
    (hout : st.output_text ≠ [])
    (hk1 : 1 ≤ k) (hk3 : k ≤ 3)
    (hkle : k ≤ (splitWS st.output_text).length)
    (htok : splitWS seg =
      (splitWS st.output_text).drop ((splitWS st.output_text).length - k)) :
    apply_heuristic env store st u appId conf = ⟨st, st.output_text, "ignore", store⟩ := by
  have hne : (normalize_spaces u).isEmpty = false := by
    simp [List.isEmpty_iff, hraw]
  have hded : dedupe_overlap st.output_text seg = [] :=
    dedupe_overlap_full st.output_text seg k hout hsegne hk1 hk3 hkle htok
  have hsb : seg.isEmpty = false := by
    simp [List.isEmpty_iff, hsegne]
  simp only [apply_heuristic, hne, hset, hsnip]
  simp only [applyHeuristicRest, hclear, hclear2, hrepl, htrail, hign, had, hfm, har,
    hundo, hseg]
  simp [hsb, hded]

/-- Witness for C10: dictating `"World."` right after the output text
`"Hello World."` is dropped entirely by the overlap dedupe. -/
theorem c10_full_overlap_dedupe_ignored_witness :
    normalize_spaces (lc "World.") ≠ [] ∧
    apply_heuristic defaultEnv emptyStore ⟨[lc "Hello World."], lc "Hello World."⟩
        (lc "World.") none none =
      ⟨⟨[lc "Hello World."], lc "Hello World."⟩, lc "Hello World.", "ignore",
        emptyStore⟩ := by
  refine ⟨by decide, ?_⟩
  exact c10_full_overlap_dedupe_ignored defaultEnv emptyStore
    ⟨[lc "Hello World."], lc "Hello World."⟩ none none (lc "World.") (lc "World.") 1
    (by decide) (by decide) (by decide) (by decide) (by decide) (by decide) (by decide)
    (by decide) (by decide) (by decide) (by decide) (by decide) (by decide) (by decide)
    (by decide) (by decide) (by decide) (by decide) (by decide)

/-- Claim C8: with adaptive learning on and the default promotion
threshold 2, one learned replace leaves the trigger below threshold
(the adaptive dictionary does not expose it), two promote it; and in
the end-to-end flow, running `replace twinker with PyQt` twice (each
actually changing the output) then dictating content containing
`twinker` substitutes it with `PyQt`, while a store with count 1 leaves
the content unchanged. -/
theorem c8_adaptive_replace_promotion :
    (∀ tgt repl : List Char,
      lowerS (normalize_spaces tgt) ≠ [] →
      normalize_spaces repl ≠ [] →
      lowerS (normalize_spaces tgt) ≠ lowerS (normalize_spaces repl) →
      lookupA (adaptive_dictionary defaultConfig
          (learn_adaptive_replacement defaultConfig emptyStore tgt repl none) none)
        (lowerS (normalize_spaces tgt)) = none ∧
      lookupA (adaptive_dictionary defaultConfig
          (learn_adaptive_replacement defaultConfig
            (learn_adaptive_replacement defaultConfig emptyStore tgt repl none)
            tgt repl none) none)
        (lowerS (normalize_spaces tgt)) = some (normalize_spaces repl)) ∧
    (apply_heuristic defaultEnv emptyStore
        ⟨[lc "We use twinker."], lc "We use twinker."⟩
        (lc "replace twinker with PyQt") none none =
      ⟨⟨[lc "We use PyQt."], lc "We use PyQt."⟩, lc "We use PyQt.", "undo_append",
        ⟨[(lc "twinker", ⟨lc "PyQt", 1⟩)], []⟩⟩ ∧
     apply_heuristic defaultEnv ⟨[(lc "twinker", ⟨lc "PyQt", 1⟩)], []⟩
        ⟨[lc "We use twinker."], lc "We use twinker."⟩
        (lc "replace twinker with PyQt") none none =
      ⟨⟨[lc "We use PyQt."], lc "We use PyQt."⟩, lc "We use PyQt.", "undo_append",
        ⟨[(lc "twinker", ⟨lc "PyQt", 2⟩)], []⟩⟩ ∧
     apply_heuristic defaultEnv ⟨[(lc "twinker", ⟨lc "PyQt", 1⟩)], []⟩ ⟨[], []⟩
        (lc "twinker works well") none none =
      ⟨⟨[lc "Twinker works well."], lc "Twinker works well."⟩, lc "Twinker works well.",
        "append", ⟨[(lc "twinker", ⟨lc "PyQt", 1⟩)], []⟩⟩ ∧
     apply_heuristic defaultEnv ⟨[(lc "twinker", ⟨lc "PyQt", 2⟩)], []⟩ ⟨[], []⟩
        (lc "twinker works well") none none =
      ⟨⟨[lc "PyQt works well."], lc "PyQt works well."⟩, lc "PyQt works well.",
        "append", ⟨[(lc "twinker", ⟨lc "PyQt", 2⟩)], []⟩⟩) := by
  constructor
  · intro tgt repl htk hrc htne
    have h1 : (lowerS (normalize_spaces tgt)).isEmpty = false := by
      simp [List.isEmpty_iff, htk]
    have h2 : (normalize_spaces repl).isEmpty = false := by
      simp [List.isEmpty_iff, hrc]
    have hs1 : learn_adaptive_replacement defaultConfig emptyStore tgt repl none =
        { globalMap := [(lowerS (normalize_spaces tgt), ⟨normalize_spaces repl, 1⟩)],
          apps := [] } := by
      simp only [learn_adaptive_replacement, defaultConfig, emptyStore]
      rw [if_neg (by decide)]
      rw [if_neg (by simp [h1, h2])]
      rw [if_neg htne]
      rw [if_neg (by decide)]
      simp [lookupA, updateA]
    have hs2 : learn_adaptive_replacement defaultConfig
        { globalMap := [(lowerS (normalize_spaces tgt), ⟨normalize_spaces repl, 1⟩)],
          apps := [] } tgt repl none =
        { globalMap := [(lowerS (normalize_spaces tgt), ⟨normalize_spaces repl, 2⟩)],
          apps := [] } := by
      simp only [learn_adaptive_replacement, defaultConfig]
      rw [if_neg (by decide)]
      rw [if_neg (by simp [h1, h2])]
      rw [if_neg htne]
      rw [if_neg (by decide)]
      simp [lookupA, updateA]
    rw [hs1, hs2]
    constructor
    · simp [adaptive_dictionary, defaultConfig, lookupA]
    · simp [adaptive_dictionary, defaultConfig, lookupA, h1, h2]
  · exact ⟨by decide, by decide, by decide, by decide⟩

/-- Witness for the general part of C8 at the concrete trigger
`twinker` and replacement `PyQt`. -/
theorem c8_adaptive_replace_promotion_witness :
    lowerS (normalize_spaces (lc "twinker")) ≠ [] ∧
    (lookupA (adaptive_dictionary defaultConfig
        (learn_adaptive_replacement defaultConfig emptyStore
          (lc "twinker") (lc "PyQt") none) none)
      (lowerS (normalize_spaces (lc "twinker"))) = none ∧
    lookupA (adaptive_dictionary defaultConfig
        (learn_adaptive_replacement defaultConfig
          (learn_adaptive_replacement defaultConfig emptyStore
            (lc "twinker") (lc "PyQt") none)
          (lc "twinker") (lc "PyQt") none) none)
      (lowerS (normalize_spaces (lc "twinker"))) = some (normalize_spaces (lc "PyQt"))) :=
  ⟨by decide, c8_adaptive_replace_promotion.1 (lc "twinker") (lc "PyQt")
    (by decide) (by decide) (by decide)⟩

theorem singleSpaced_tail {c : Char} {cs : List Char}
    (h : singleSpaced (c :: cs) = true) : singleSpaced cs = true := by
  simp only [singleSpaced, Bool.and_eq_true] at h
  exact h.2

theorem spaceOk_space {c : Char} {next : Option Char}
    (h : spaceOkC c next = true) (hsp : isSpaceC c = true) :
    c = ' ' ∧ notSpaceO next = true := by
  simp only [spaceOkC, hsp, Bool.not_true, Bool.false_or, Bool.and_eq_true] at h
  exact ⟨by simpa using h.1, h.2⟩

theorem singleSpaced_head {c : Char} {cs : List Char}
    (h : singleSpaced (c :: cs) = true) : spaceOkC c cs.head? = true := by
  simp only [singleSpaced, Bool.and_eq_true] at h
  exact h.1

theorem takeWhile_space_nil {cs : List Char} (h : notSpaceO cs.head? = true) :
    cs.takeWhile isSpaceC = [] := by
  cases cs with
  | nil => rfl
  | cons d ds =>
    simp only [notSpaceO, List.head?] at h
    rw [List.takeWhile_cons, if_neg (by simp_all)]

theorem subAllF_wsRun_id : ∀ (fuel : Nat) (prev : Option Char) (s : List Char),
    s.length ≤ fuel → singleSpaced s = true → subAllF wsRunM fuel prev s = s := by
  intro fuel
  induction fuel with
  | zero =>
    intro prev s hs _
    cases s with
    | nil => rfl
    | cons c cs => simp at hs
  | succ n ih =>
    intro prev s hs hss
    cases s with
    | nil => rfl
    | cons c cs =>
      have hlen : cs.length ≤ n := by simpa using Nat.le_of_succ_le_succ hs
      have htail := singleSpaced_tail hss
      by_cases hsp : isSpaceC c = true
      · obtain ⟨hc, hhd⟩ := spaceOk_space (singleSpaced_head hss) hsp
        have hws : wsRunM prev (c :: cs) = some (1, [' ']) := by
          simp only [wsRunM, spanP, List.takeWhile_cons, if_pos hsp,
            takeWhile_space_nil hhd]
          rfl
        simp only [subAllF, hws]
        have h1 : List.take (1 ⊔ 1) (c :: cs) = [c] := rfl
        have h2 : List.drop (1 ⊔ 1) (c :: cs) = cs := rfl
        rw [h1, h2]
        have h3 : ([c] : List Char).getLast? = some c := rfl
        rw [h3, ih _ cs hlen htail]
        simp [hc]
      · have hws : wsRunM prev (c :: cs) = none := by
          simp only [wsRunM, spanP, List.takeWhile_cons, if_neg hsp]
          rfl
        simp only [subAllF, hws]
        rw [ih _ cs hlen htail]

theorem wellSpaced_strip {s : List Char} (h : wellSpaced s = true) :
    strip s = s := by
  simp only [wellSpaced, Bool.and_eq_true] at h
  apply strip_eq_self_of
  · intro c hc
    have := h.1.2
    rw [hc] at this
    simpa [notSpaceO] using this
  · intro c hc
    have := h.2
    rw [hc] at this
    simpa [notSpaceO] using this

theorem normalize_spaces_id {s : List Char} (h : wellSpaced s = true) :
    normalize_spaces s = s := by
  have hss : singleSpaced s = true := by
    simp only [wellSpaced, Bool.and_eq_true] at h
    exact h.1.1
  unfold normalize_spaces subAll
  rw [subAllF_wsRun_id s.length none s (Nat.le_refl _) hss]
  exact wellSpaced_strip h

theorem noMatch_multiSpace {s : List Char} (h : singleSpaced s = true) :
    ∀ prev, noMatch multiSpaceM prev s = true := by
  induction s with
  | nil => intro prev; rfl
  | cons c cs ih =>
    intro prev
    have htail := singleSpaced_tail h
    have hm : multiSpaceM prev (c :: cs) = none := by
      by_cases hsp : isSpaceC c = true
      · obtain ⟨_, hhd⟩ := spaceOk_space (singleSpaced_head h) hsp
        simp only [multiSpaceM, spanP, List.takeWhile_cons, if_pos hsp,
          takeWhile_space_nil hhd]
        norm_num
      · simp only [multiSpaceM, spanP, List.takeWhile_cons, if_neg hsp]
        norm_num
    simp only [noMatch, hm, Option.isNone_none, Bool.true_and]
    exact ih htail (some c)

theorem capSentencesAux_id : ∀ (s : List Char) (b : Bool),
    capOKAux b s = true → capSentencesAux b s = s := by
  intro s
  induction s with
  | nil => intro b _; rfl
  | cons c cs ih =>
    intro b h
    simp only [capOKAux] at h
    rw [Bool.and_eq_true] at h
    obtain ⟨h1, h2⟩ := h
    simp only [capSentencesAux]
    by_cases hd : (b && isAlphaC c) = true
    · have hupper : pyUpperC c = c := by
        rw [hd] at h1
        simpa using h1
      rw [if_pos hd, hupper, ih _ h2]
    · rw [if_neg hd, ih _ h2]

theorem normSeg_fixed (cfg : Config) (conf : Option ℚ) (s : List Char)
    (h : CleanSeg cfg conf s = true) : normalize_segment cfg conf s = s := by
  by_cases hnil : s = []
  · subst hnil; rfl
  · simp only [CleanSeg, Bool.and_eq_true] at h
    obtain ⟨⟨⟨⟨⟨⟨⟨⟨⟨⟨hws, hcf⟩, hfp⟩, hfw⟩, hagg⟩, hrw⟩, hrp⟩, hsb⟩, hpn⟩, hcap⟩,
      hterm⟩ := h
    have hne : s.isEmpty = false := by simp [List.isEmpty_iff, hnil]
    have hns : normalize_spaces s = s := normalize_spaces_id hws
    have hstrip : strip s = s := wellSpaced_strip hws
    have hss : singleSpaced s = true := by
      simp only [wellSpaced, Bool.and_eq_true] at hws
      exact hws.1.1
    have hcf' : stripContentFiller s = s := by
      simp only [stripContentFiller]
      rw [Option.isNone_iff_eq_none] at hcf
      rw [hcf]
      exact hstrip
    replace hfp := subAll_of_noMatch _ s hfp
    replace hfw := subAll_of_noMatch _ s hfw
    replace hrw := subAll_of_noMatch _ s hrw
    replace hrp := subAll_of_noMatch _ s hrp
    have hsb' := subAll_of_noMatch _ s hsb
    have hpn' := subAll_of_noMatch _ s hpn
    have hms := subAll_of_noMatch _ s (noMatch_multiSpace hss none)
    have hclean : cleanup_disfluencies cfg conf s = s := by
      simp only [cleanup_disfluencies, hns, hne, Bool.false_eq_true, if_false]
      by_cases hl : effective_cleanup_level cfg conf = "aggressive"
      · rw [if_pos hl] at hagg
        simp only [Bool.and_eq_true] at hagg
        have ha1 := subAll_of_noMatch _ s hagg.1
        have ha2 := subAll_of_noMatch _ s hagg.2
        rw [if_pos hl, if_pos hl, hfp, hfw, ha1, hrw, hrp, ha2, hsb', hpn', hms]
        exact hstrip
      · rw [if_neg hl, if_neg hl, hfp, hfw, hrw, hrp, hsb', hpn', hms]
        exact hstrip
    have hcap' : capitalize_sentences s = s := capSentencesAux_id s true hcap
    have hpol : polish_punctuation s = s := by
      simp only [polish_punctuation, hns, hne, Bool.false_eq_true, if_false]
      rw [hsb', hpn', hcap']
      have hto : isTermO s.getLast? = true := by
        rw [hne] at hterm
        simpa using hterm
      rw [hne, hto]
      simp
    simp only [normalize_segment, hns, hcf', hclean, hpol]

/-- Claim C9 amended: the normalizer is idempotent on every input whose
normalized form is clean — well-spaced, free of filler and repetition
matches, capitalized, and closed by terminal punctuation (`CleanSeg`);
on such outputs a second `normalize_segment` pass is the identity. -/
theorem c9_normalize_idempotent_amended (cfg : Config) (conf : Option ℚ)
    (t : List Char)
    (h : CleanSeg cfg conf (normalize_segment cfg conf t) = true) :
    normalize_segment cfg conf (normalize_segment cfg conf t) =
      normalize_segment cfg conf t :=
  normSeg_fixed cfg conf (normalize_segment cfg conf t) h

/-- Witness for the amended C9 at the input `"hello world"` under the
default configuration. -/
theorem c9_normalize_idempotent_amended_witness :
    CleanSeg defaultConfig none
        (normalize_segment defaultConfig none (lc "hello world")) = true ∧
    normalize_segment defaultConfig none
        (normalize_segment defaultConfig none (lc "hello world")) =
      normalize_segment defaultConfig none (lc "hello world") :=
  ⟨by decide, c9_normalize_idempotent_amended defaultConfig none (lc "hello world")
    (by decide)⟩
